import Mathlib

/-!
Verification development for the GorAI_LLMClient repository: a shallow
embedding, in Lean 4, of the provider adapters (`_openai_model.py`,
`_anthropic_model.py`), the orchestration loops (`_model_base.py`,
`_deepseek_openai_model.py`, `_minimax_anthropic_model.py`) and the
fault-tolerant tool-argument parser, together with theorems settling the
frozen behavioural claims about this code.

Conventions of the embedding:
* Python strings are Lean `String`s.  In the places where the Python code
  treats `None` and `""` identically (every `x or ""` / `if x:` test on the
  optional string fields of streamed deltas), the optional string is embedded
  as a plain `String` with `""` standing for "absent".
* Python's `json` module is an external collaborator of the repository
  (spec section 1 lists JSON text encoding/decoding primitives as out of
  scope); it is embedded by an executable strict recursive-descent parser
  `jsonLoads` with JSON numbers restricted to integers (no claim exercises
  fractional numbers) and ASCII whitespace.
* Generators are embedded as functions producing the full list of yielded
  events; a provider stream that raises is embedded by an explicit
  "raise after k chunks" parameter, mirroring where the `try/except` blocks
  of the source catch the exception.
-/

/-- JSON values, as produced by Python's `json.loads`.  Objects keep their
fields in document order; numbers are restricted to integers (sufficient for
every input exercised by the claims). -/
inductive JValue where
  | null : JValue
  | bool (b : Bool) : JValue
  | num (n : Int) : JValue
  | str (s : String) : JValue
  | arr (elems : List JValue) : JValue
  | obj (fields : List (String × JValue)) : JValue

/-- The double-quote character. -/
def dquoteChar : Char := Char.ofNat 34

/-- The single-quote (apostrophe) character. -/
def squoteChar : Char := Char.ofNat 39

/-- The backslash character. -/
def backslashChar : Char := Char.ofNat 92

/-- The opening-brace character. -/
def lbraceChar : Char := Char.ofNat 123

/-- The closing-brace character. -/
def rbraceChar : Char := Char.ofNat 125

/-- JSON whitespace (also what `str.strip()` removes on the inputs the
claims exercise): space, tab, line feed, carriage return. -/
def isWsChar (c : Char) : Bool :=
  c = ' ' || c = Char.ofNat 9 || c = Char.ofNat 10 || c = Char.ofNat 13

/-- Drop leading whitespace characters. -/
def skipWs : List Char → List Char
  | [] => []
  | c :: cs => if isWsChar c then skipWs cs else c :: cs

/-- Decimal digit test. -/
def isDigitChar (c : Char) : Bool := '0' ≤ c && c ≤ '9'

/-- Split a character list into its maximal digit prefix and the rest. -/
def takeDigits : List Char → (List Char × List Char)
  | [] => ([], [])
  | c :: cs =>
    if isDigitChar c then
      let (ds, rest) := takeDigits cs
      (c :: ds, rest)
    else ([], c :: cs)

/-- Numeric value of a digit list. -/
def digitsToNat (ds : List Char) : Nat :=
  ds.foldl (fun a c => a * 10 + (c.toNat - 48)) 0

/-- Parse a JSON integer literal (optional minus sign, no leading zeros),
returning its value and the unconsumed input. -/
def parseIntLit (cs : List Char) : Option (Int × List Char) :=
  match cs with
  | '-' :: rest =>
    match takeDigits rest with
    | ([], _) => none
    | (d :: ds, rest') =>
      if d = '0' && ds ≠ [] then none
      else some (-(digitsToNat (d :: ds) : Int), rest')
  | _ =>
    match takeDigits cs with
    | ([], _) => none
    | (d :: ds, rest') =>
      if d = '0' && ds ≠ [] then none
      else some ((digitsToNat (d :: ds) : Int), rest')

/-- Hexadecimal digit value. -/
def hexVal (c : Char) : Option Nat :=
  if isDigitChar c then some (c.toNat - 48)
  else if 'a' ≤ c && c ≤ 'f' then some (c.toNat - 87)
  else if 'A' ≤ c && c ≤ 'F' then some (c.toNat - 55)
  else none

/-- Parse the body of a JSON string after the opening double quote, handling
the escape sequences `json.loads` accepts and rejecting raw control
characters (Python's default strict mode). -/
def parseStringBody : Nat → List Char → Option (List Char × List Char)
  | 0, _ => none
  | _, [] => none
  | fuel + 1, c :: cs =>
    if c = dquoteChar then some ([], cs)
    else if c = backslashChar then
      match cs with
      | [] => none
      | e :: cs' =>
        if e = dquoteChar then (parseStringBody fuel cs').map (fun (b, r) => (dquoteChar :: b, r))
        else if e = backslashChar then (parseStringBody fuel cs').map (fun (b, r) => (backslashChar :: b, r))
        else if e = '/' then (parseStringBody fuel cs').map (fun (b, r) => ('/' :: b, r))
        else if e = 'b' then (parseStringBody fuel cs').map (fun (b, r) => (Char.ofNat 8 :: b, r))
        else if e = 'f' then (parseStringBody fuel cs').map (fun (b, r) => (Char.ofNat 12 :: b, r))
        else if e = 'n' then (parseStringBody fuel cs').map (fun (b, r) => (Char.ofNat 10 :: b, r))
        else if e = 'r' then (parseStringBody fuel cs').map (fun (b, r) => (Char.ofNat 13 :: b, r))
        else if e = 't' then (parseStringBody fuel cs').map (fun (b, r) => (Char.ofNat 9 :: b, r))
        else if e = 'u' then
          match cs' with
          | h1 :: h2 :: h3 :: h4 :: cs'' =>
            match hexVal h1, hexVal h2, hexVal h3, hexVal h4 with
            | some a, some b, some c', some d =>
              (parseStringBody fuel cs'').map
                (fun (bd, r) => (Char.ofNat (((a * 16 + b) * 16 + c') * 16 + d) :: bd, r))
            | _, _, _, _ => none
          | _ => none
        else none
    else if c.toNat < 32 then none
    else (parseStringBody fuel cs).map (fun (b, r) => (c :: b, r))

mutual

/-- Parse one JSON value (after optional leading whitespace), returning the
value and the unconsumed input.  Fueled recursion; `jsonLoads` supplies
enough fuel for any input. -/
def parseVal : Nat → List Char → Option (JValue × List Char)
  | 0, _ => none
  | fuel + 1, cs =>
    match skipWs cs with
    | [] => none
    | c :: rest =>
      if c = lbraceChar then parseMembers fuel rest
      else if c = '[' then parseElems fuel rest
      else if c = dquoteChar then
        (parseStringBody (fuel + 1) rest).map (fun (b, r) => (JValue.str (String.mk b), r))
      else if c = 't' then
        match rest with
        | 'r' :: 'u' :: 'e' :: r => some (JValue.bool true, r)
        | _ => none
      else if c = 'f' then
        match rest with
        | 'a' :: 'l' :: 's' :: 'e' :: r => some (JValue.bool false, r)
        | _ => none
      else if c = 'n' then
        match rest with
        | 'u' :: 'l' :: 'l' :: r => some (JValue.null, r)
        | _ => none
      else
        (parseIntLit (c :: rest)).map (fun (n, r) => (JValue.num n, r))

/-- Parse the members of a JSON object after the opening brace. -/
def parseMembers : Nat → List Char → Option (JValue × List Char)
  | 0, _ => none
  | fuel + 1, cs =>
    match skipWs cs with
    | [] => none
    | c :: rest =>
      if c = rbraceChar then some (JValue.obj [], rest)
      else if c = dquoteChar then
        match parseStringBody (fuel + 1) rest with
        | none => none
        | some (k, r1) =>
          match skipWs r1 with
          | ':' :: r2 =>
            match parseVal fuel r2 with
            | none => none
            | some (v, r3) => parseMoreMembers fuel [(String.mk k, v)] r3
          | _ => none
      else none

/-- Parse `, "key": value` continuations of a JSON object, or its closing
brace. -/
def parseMoreMembers : Nat → List (String × JValue) → List Char → Option (JValue × List Char)
  | 0, _, _ => none
  | fuel + 1, acc, cs =>
    match skipWs cs with
    | c :: rest =>
      if c = rbraceChar then some (JValue.obj acc, rest)
      else if c = ',' then
        match skipWs rest with
        | q :: r1 =>
          if q = dquoteChar then
            match parseStringBody (fuel + 1) r1 with
            | none => none
            | some (k, r2) =>
              match skipWs r2 with
              | ':' :: r3 =>
                match parseVal fuel r3 with
                | none => none
                | some (v, r4) => parseMoreMembers fuel (acc ++ [(String.mk k, v)]) r4
              | _ => none
          else none
        | [] => none
      else none
    | [] => none

/-- Parse the elements of a JSON array after the opening bracket. -/
def parseElems : Nat → List Char → Option (JValue × List Char)
  | 0, _ => none
  | fuel + 1, cs =>
    match skipWs cs with
    | ']' :: rest => some (JValue.arr [], rest)
    | _ =>
      match parseVal fuel cs with
      | none => none
      | some (v, r1) => parseMoreElems fuel [v] r1

/-- Parse `, value` continuations of a JSON array, or its closing bracket. -/
def parseMoreElems : Nat → List JValue → List Char → Option (JValue × List Char)
  | 0, _, _ => none
  | fuel + 1, acc, cs =>
    match skipWs cs with
    | ']' :: rest => some (JValue.arr acc, rest)
    | ',' :: rest =>
      match parseVal fuel rest with
      | none => none
      | some (v, r1) => parseMoreElems fuel (acc ++ [v]) r1
    | _ => none

end

/-- Strict JSON parse of a whole string: Python's `json.loads`, embedded.
Returns `none` where `json.loads` raises `JSONDecodeError`. -/
def jsonLoads (s : String) : Option JValue :=
  match parseVal (s.data.length + 1) s.data with
  | some (v, rest) => if skipWs rest = [] then some v else none
  | none => none

/-- Python truthiness test `not s or not s.strip()`: the string is empty or
whitespace-only. -/
def isBlankStr (s : String) : Bool := s.data.all isWsChar

/-- Python `s.replace(a, b)` for one-character patterns: replace every
occurrence of character `a` by character `b`. -/
def replaceChar (s : String) (a b : Char) : String :=
  String.mk (s.data.map (fun c => if c = a then b else c))

/-- model_base._try_parse_tool_arguments (src/models/_model_base.py, lines
91-116): empty or whitespace-only input yields the empty argument dict;
otherwise a strict JSON parse is attempted, and on failure exactly one
repair pass replaces single quotes by double quotes and re-parses; if that
also fails the function returns the failure sentinel (Python `None`, here
`Option.none`).  Both `json.JSONDecodeError` paths are caught in the
source, so the embedding is a total function into `Option`. -/
def tryParseToolArguments (s : String) : Option JValue :=
  if isBlankStr s then some (JValue.obj [])
  else
    match jsonLoads s with
    | some v => some v
    | none => jsonLoads (replaceChar s squoteChar dquoteChar)

example : tryParseToolArguments "" = some (JValue.obj []) := rfl
example : tryParseToolArguments "   " = some (JValue.obj []) := rfl
example : tryParseToolArguments "\x7b\x27a\x27: 1\x7d" = some (JValue.obj [("a", JValue.num 1)]) :=
  rfl
example : tryParseToolArguments "\x7bbad" = none := rfl
example : jsonLoads "\x7b\x22a\x22: 1, \x22b\x22: [true, null]\x7d" =
    some (JValue.obj [("a", JValue.num 1), ("b", JValue.arr [JValue.bool true, JValue.null])]) :=
  rfl

/-- A complete tool-call record, as assembled by the adapters and consumed
by the orchestrators: Python dict
`\x7b"id": ..., "type": "function", "function": \x7b"name": ..., "arguments": ...\x7d\x7d`
(the constant `"type": "function"` field is omitted).  The same shape serves
as the `tool_calls` entry of persisted assistant messages. -/
structure ToolCall where
  id : String
  name : String
  arguments : String
deriving DecidableEq, Repr

/-- A normalized model event (`MsgReturn.gorType` of
src/message/_message_base.py): think, answer, tool, end or error.  A tool
event carries the record that the source serializes with `json.dumps` into
`MsgReturn.content` and the orchestrator parses back with `json.loads`
(an identity round trip, so the embedding carries the record itself). -/
inductive MEvent where
  | think (s : String) : MEvent
  | answer (s : String) : MEvent
  | tool (tc : ToolCall) : MEvent
  | endEv : MEvent
  | error (s : String) : MEvent
deriving DecidableEq, Repr

/-- One streamed OpenAI tool-call fragment
(`chunk.choices[0].delta.tool_calls[i]`): a numeric index plus optional
id/name/arguments fragments ("" embeds Python `None`, which this code
treats identically to `""`). -/
structure ToolCallDelta where
  index : Nat
  id : String
  name : String
  arguments : String
deriving DecidableEq, Repr

/-- Association-list embedding of the Python dict `tool_calls_dict`
(insertion-ordered, keys unique): value of key `k`. -/
def lookupA (k : Nat) : List (Nat × ToolCall) → Option ToolCall
  | [] => none
  | (i, r) :: t => if i = k then some r else lookupA k t

/-- In-place update of the value at key `k` of the association list. -/
def updateA (k : Nat) (f : ToolCall → ToolCall) : List (Nat × ToolCall) → List (Nat × ToolCall)
  | [] => []
  | (i, r) :: t => if i = k then (i, f r) :: t else (i, r) :: updateA k f t

/-- openai_chat_completetion_model._handle_stream_response, new-tool branch
(src/models/_openai_model.py, lines 95-104): a first fragment for an index
creates the record from its own fields (`x or ""`). -/
def newRec (d : ToolCallDelta) : ToolCall :=
  { id := d.id, name := d.name, arguments := d.arguments }

/-- openai_chat_completetion_model._handle_stream_response, existing-tool
branch (src/models/_openai_model.py, lines 105-113): a later non-empty id
fills an empty id; non-empty name and arguments fragments are concatenated
onto the record. -/
def updRec (r : ToolCall) (d : ToolCallDelta) : ToolCall :=
  { id := if d.id ≠ "" && r.id = "" then d.id else r.id
    name := if d.name ≠ "" then r.name ++ d.name else r.name
    arguments := if d.arguments ≠ "" then r.arguments ++ d.arguments else r.arguments }

/-- One step of the dict-based accumulation (src/models/_openai_model.py,
lines 90-113): insert a new record or update the record at the fragment's
index. -/
def stepDelta (acc : List (Nat × ToolCall)) (d : ToolCallDelta) : List (Nat × ToolCall) :=
  match lookupA d.index acc with
  | none => acc ++ [(d.index, newRec d)]
  | some _ => updateA d.index (fun r => updRec r d) acc

/-- The accumulated `tool_calls_dict` after a whole stream of fragments. -/
def accumulateDeltas (ds : List ToolCallDelta) : List (Nat × ToolCall) :=
  ds.foldl stepDelta []

/-- openai_chat_completetion_model._handle_stream_response, finalization
(src/models/_openai_model.py, line 116):
`[tool_calls_dict[i] for i in sorted(tool_calls_dict.keys()) if tool_calls_dict[i]["id"]]`. -/
def finalizeToolCalls (ds : List ToolCallDelta) : List ToolCall :=
  let dict := accumulateDeltas ds
  (List.insertionSort (· ≤ ·) (dict.map Prod.fst)).filterMap
    (fun k =>
      match lookupA k dict with
      | some r => if r.id ≠ "" then some r else none
      | none => none)

/-- The fragments of the stream addressed to index `k`, in arrival order. -/
def fragsAt (k : Nat) (ds : List ToolCallDelta) : List ToolCallDelta :=
  ds.filter (fun d => d.index = k)

/-- Order-independent per-index description of the accumulator: the id is
the first non-empty id fragment, and name/arguments are the concatenation
of all fragments at that index in arrival order. -/
def canonRec (fs : List ToolCallDelta) : ToolCall :=
  { id := fs.foldl (fun a f => if a = "" then f.id else a) ""
    name := fs.foldl (fun a f => a ++ f.name) ""
    arguments := fs.foldl (fun a f => a ++ f.arguments) "" }

theorem string_append_empty (s : String) : s ++ "" = s := by
  cases s with
  | mk data => show String.mk (data ++ []) = String.mk data; simp

theorem string_empty_append (s : String) : "" ++ s = s := by
  cases s with
  | mk data => rfl

theorem string_append_assoc (a b c : String) : a ++ b ++ c = a ++ (b ++ c) := by
  cases a with
  | mk da =>
    cases b with
    | mk db =>
      cases c with
      | mk dc =>
        show String.mk (da ++ db ++ dc) = String.mk (da ++ (db ++ dc))
        simp

theorem lookupA_append (acc : List (Nat × ToolCall)) (i : Nat) (r : ToolCall) (k : Nat) :
    lookupA k (acc ++ [(i, r)]) =
      match lookupA k acc with
      | some r' => some r'
      | none => if i = k then some r else none := by
  induction acc with
  | nil => rfl
  | cons p t ih =>
    obtain ⟨j, r'⟩ := p
    by_cases h : j = k <;> simp [lookupA, h, ih]

theorem lookupA_updateA_eq (k : Nat) (f : ToolCall → ToolCall) (acc : List (Nat × ToolCall)) :
    lookupA k (updateA k f acc) = (lookupA k acc).map f := by
  induction acc with
  | nil => rfl
  | cons p t ih =>
    obtain ⟨j, r⟩ := p
    by_cases h : j = k <;> simp [lookupA, updateA, h, ih]

theorem lookupA_updateA_ne (i k : Nat) (h : i ≠ k) (f : ToolCall → ToolCall)
    (acc : List (Nat × ToolCall)) : lookupA k (updateA i f acc) = lookupA k acc := by
  induction acc with
  | nil => rfl
  | cons p t ih =>
    obtain ⟨j, r⟩ := p
    by_cases hj : j = i
    · subst hj
      simp [lookupA, updateA, h]
    · by_cases hk : j = k
      · subst hk
        simp [lookupA, updateA, Ne.symm h]
      · simp [lookupA, updateA, hj, hk, ih]

/-- The per-index trajectory of one dict slot: the slot is created by the
first fragment (`newRec`) and updated by every later one (`updRec`). -/
def runFrom : Option ToolCall → List ToolCallDelta → Option ToolCall
  | o, [] => o
  | none, f :: fs => runFrom (some (newRec f)) fs
  | some r, f :: fs => runFrom (some (updRec r f)) fs

theorem runFrom_some (r : ToolCall) (fs : List ToolCallDelta) :
    runFrom (some r) fs = some (fs.foldl updRec r) := by
  induction fs generalizing r with
  | nil => rfl
  | cons f fs ih => simp [runFrom, ih, List.foldl_cons]

theorem fragsAt_cons (k : Nat) (d : ToolCallDelta) (ds : List ToolCallDelta) :
    fragsAt k (d :: ds) = if d.index = k then d :: fragsAt k ds else fragsAt k ds := by
  by_cases h : d.index = k <;> simp [fragsAt, List.filter_cons, h]

/-- Dict accumulation is per-index independent: the slot of key `k` after
processing the whole stream from any starting dict is the `runFrom`
trajectory of the fragments addressed to `k`. -/
theorem lookupA_foldl_stepDelta (ds : List ToolCallDelta) (acc : List (Nat × ToolCall)) (k : Nat) :
    lookupA k (ds.foldl stepDelta acc) = runFrom (lookupA k acc) (fragsAt k ds) := by
  induction ds generalizing acc with
  | nil => simp [fragsAt, runFrom]
  | cons d ds ih =>
    rw [List.foldl_cons, ih, fragsAt_cons]
    by_cases h : d.index = k
    · subst h
      rw [if_pos rfl]
      unfold stepDelta
      cases hl : lookupA d.index acc with
      | none =>
        have h2 : lookupA d.index (acc ++ [(d.index, newRec d)]) = some (newRec d) := by
          rw [lookupA_append, hl]
          simp
        rw [h2]
        rfl
      | some r =>
        rw [lookupA_updateA_eq, hl]
        rfl
    · rw [if_neg h]
      unfold stepDelta
      cases hl : lookupA d.index acc with
      | none =>
        rw [lookupA_append]
        cases hk : lookupA k acc with
        | none => simp [h]
        | some r => rfl
      | some r => rw [lookupA_updateA_ne _ _ h]

theorem foldl_updRec_id (fs : List ToolCallDelta) (r : ToolCall) :
    (fs.foldl updRec r).id = fs.foldl (fun a f => if a = "" then f.id else a) r.id := by
  induction fs generalizing r with
  | nil => rfl
  | cons f fs ih =>
    rw [List.foldl_cons, List.foldl_cons, ih]
    congr 1
    show (updRec r f).id = _
    unfold updRec
    by_cases hr : r.id = "" <;> by_cases hf : f.id = "" <;> simp [hr, hf]

theorem foldl_updRec_name (fs : List ToolCallDelta) (r : ToolCall) :
    (fs.foldl updRec r).name = fs.foldl (fun a f => a ++ f.name) r.name := by
  induction fs generalizing r with
  | nil => rfl
  | cons f fs ih =>
    rw [List.foldl_cons, List.foldl_cons, ih]
    congr 1
    show (updRec r f).name = r.name ++ f.name
    unfold updRec
    by_cases hf : f.name = "" <;> simp [hf, string_append_empty]

theorem foldl_updRec_arguments (fs : List ToolCallDelta) (r : ToolCall) :
    (fs.foldl updRec r).arguments = fs.foldl (fun a f => a ++ f.arguments) r.arguments := by
  induction fs generalizing r with
  | nil => rfl
  | cons f fs ih =>
    rw [List.foldl_cons, List.foldl_cons, ih]
    congr 1
    show (updRec r f).arguments = r.arguments ++ f.arguments
    unfold updRec
    by_cases hf : f.arguments = "" <;> simp [hf, string_append_empty]

theorem foldl_strAppend_shift (g : ToolCallDelta → String) (fs : List ToolCallDelta)
    (a b : String) :
    fs.foldl (fun x f => x ++ g f) (a ++ b) = a ++ fs.foldl (fun x f => x ++ g f) b := by
  induction fs generalizing b with
  | nil => rfl
  | cons f fs ih => rw [List.foldl_cons, List.foldl_cons, string_append_assoc, ih]

/-- Non-empty fragment lists: the dict trajectory from an empty slot equals
the canonical per-index description. -/
theorem runFrom_none_canon (fs : List ToolCallDelta) :
    runFrom none fs = if fs = [] then none else some (canonRec fs) := by
  cases fs with
  | nil => rfl
  | cons f fs =>
    simp only [runFrom, runFrom_some, List.cons_ne_self, if_neg (List.cons_ne_nil f fs)]
    congr 1
    unfold canonRec
    have hid : (fs.foldl updRec (newRec f)).id =
        (f :: fs).foldl (fun a g => if a = "" then g.id else a) "" := by
      rw [foldl_updRec_id, List.foldl_cons]
      rfl
    have hname : (fs.foldl updRec (newRec f)).name =
        (f :: fs).foldl (fun a g => a ++ g.name) "" := by
      rw [foldl_updRec_name, List.foldl_cons, string_empty_append]
      rfl
    have harg : (fs.foldl updRec (newRec f)).arguments =
        (f :: fs).foldl (fun a g => a ++ g.arguments) "" := by
      rw [foldl_updRec_arguments, List.foldl_cons, string_empty_append]
      rfl
    cases h : fs.foldl updRec (newRec f) with
    | mk i n a =>
      congr 1
      · rw [← hid, h]
      · rw [← hname, h]
      · rw [← harg, h]

/-- The dict slot of index `k` after the whole stream: absent when no
fragment addressed `k`, otherwise the canonical record of the fragments at
`k`. -/
theorem lookupA_accumulate (ds : List ToolCallDelta) (k : Nat) :
    lookupA k (accumulateDeltas ds) =
      if fragsAt k ds = [] then none else some (canonRec (fragsAt k ds)) := by
  rw [accumulateDeltas, lookupA_foldl_stepDelta]
  exact runFrom_none_canon _

theorem lookupA_eq_none_iff (k : Nat) (acc : List (Nat × ToolCall)) :
    lookupA k acc = none ↔ k ∉ acc.map Prod.fst := by
  induction acc with
  | nil => simp [lookupA]
  | cons p t ih =>
    obtain ⟨j, r⟩ := p
    by_cases h : j = k
    · subst h
      simp [lookupA]
    · simp [lookupA, h, Ne.symm h, ih]

theorem updateA_keys (k : Nat) (f : ToolCall → ToolCall) (acc : List (Nat × ToolCall)) :
    (updateA k f acc).map Prod.fst = acc.map Prod.fst := by
  induction acc with
  | nil => rfl
  | cons p t ih =>
    obtain ⟨j, r⟩ := p
    by_cases h : j = k <;> simp [updateA, h, ih]

theorem keys_stepDelta (acc : List (Nat × ToolCall)) (d : ToolCallDelta) :
    (stepDelta acc d).map Prod.fst =
      if lookupA d.index acc = none then acc.map Prod.fst ++ [d.index]
      else acc.map Prod.fst := by
  unfold stepDelta
  cases hl : lookupA d.index acc with
  | none => simp
  | some r => simp [updateA_keys]

theorem nodup_keys_foldl (ds : List ToolCallDelta) :
    ∀ acc, (acc.map Prod.fst).Nodup → ((ds.foldl stepDelta acc).map Prod.fst).Nodup := by
  induction ds with
  | nil => exact fun acc h => h
  | cons d ds ih =>
    intro acc h
    rw [List.foldl_cons]
    apply ih
    rw [keys_stepDelta]
    by_cases hl : lookupA d.index acc = none
    · rw [if_pos hl]
      have hmem : d.index ∉ acc.map Prod.fst := (lookupA_eq_none_iff _ _).1 hl
      simp [List.nodup_append, h, hmem]
    · rw [if_neg hl]
      exact h

theorem nodup_keys_accumulate (ds : List ToolCallDelta) :
    ((accumulateDeltas ds).map Prod.fst).Nodup :=
  nodup_keys_foldl ds [] (by simp)

theorem mem_keys_accumulate (ds : List ToolCallDelta) (k : Nat) :
    k ∈ (accumulateDeltas ds).map Prod.fst ↔ fragsAt k ds ≠ [] := by
  have h := lookupA_accumulate ds k
  by_cases hf : fragsAt k ds = []
  · rw [if_pos hf] at h
    simp only [hf]
    constructor
    · intro hm
      exact absurd h ((not_iff_not.2 (lookupA_eq_none_iff k _)).2 (by simpa using hm))
    · intro hne
      exact absurd rfl hne
  · rw [if_neg hf] at h
    constructor
    · intro _
      exact hf
    · intro _
      by_contra hm
      rw [(lookupA_eq_none_iff k _).2 hm] at h
      exact Option.noConfusion h

theorem filterMap_eq_filter_map {α β : Type _} (l : List α) (g : α → Option β) (p : α → Bool)
    (f : α → β) (h : ∀ x ∈ l, g x = if p x then some (f x) else none) :
    l.filterMap g = (l.filter p).map f := by
  induction l with
  | nil => rfl
  | cons a l ih =>
    have ha := h a (List.mem_cons_self a l)
    have hrest := ih (fun x hx => h x (List.mem_cons_of_mem a hx))
    by_cases hp : p a = true
    · simp [List.filterMap_cons, List.filter_cons, ha, hp, hrest]
    · simp [List.filterMap_cons, List.filter_cons, ha, hp, hrest]

/-- C2: for every stream of tool-call fragment deltas (numeric index plus
optional id/name/arguments fragments, indices possibly interleaved), the
OpenAI-style streaming accumulator of
openai_chat_completetion_model._handle_stream_response
(src/models/_openai_model.py, lines 89-116) yields:
(1) per index, a record whose id is the first non-empty id fragment (a later
non-empty id fills an empty id, never overwriting a non-empty one) and whose
name/arguments are the concatenation, in arrival order and never
overwritten, of the fragments at that index;
(2) a final list ordered so that a record at a smaller index precedes a
record at a larger index, containing exactly the indices whose id was
populated with a non-empty string (all others excluded);
(3) concretely, fragments for indices [1,0,1,0] with distinct ids yield
[record at 0, record at 1]. -/
theorem toolcall_accumulator_spec :
    (∀ ds : List ToolCallDelta, ∀ k : Nat,
      lookupA k (accumulateDeltas ds) =
        if fragsAt k ds = [] then none else some (canonRec (fragsAt k ds))) ∧
    (∀ ds : List ToolCallDelta, ∃ ks : List Nat,
      ks.Pairwise (· < ·) ∧
      (∀ k, k ∈ ks ↔ (fragsAt k ds ≠ [] ∧ (canonRec (fragsAt k ds)).id ≠ "")) ∧
      finalizeToolCalls ds = ks.map (fun k => canonRec (fragsAt k ds))) ∧
    (∀ ds : List ToolCallDelta, ∀ r ∈ finalizeToolCalls ds, r.id ≠ "") ∧
    finalizeToolCalls
        [⟨1, "idB", "b", "x"⟩, ⟨0, "idA", "a", "y"⟩, ⟨1, "", "B", "x2"⟩, ⟨0, "", "A", "y2"⟩] =
      [⟨"idA", "aA", "yy2"⟩, ⟨"idB", "bB", "xx2"⟩] := by
  have hmain : ∀ ds : List ToolCallDelta, ∃ ks : List Nat,
      ks.Pairwise (· < ·) ∧
      (∀ k, k ∈ ks ↔ (fragsAt k ds ≠ [] ∧ (canonRec (fragsAt k ds)).id ≠ "")) ∧
      finalizeToolCalls ds = ks.map (fun k => canonRec (fragsAt k ds)) := by
    intro ds
    refine ⟨(List.insertionSort (· ≤ ·) ((accumulateDeltas ds).map Prod.fst)).filter
      (fun k => decide ((canonRec (fragsAt k ds)).id ≠ "")), ?_, ?_, ?_⟩
    · have hsorted : (List.insertionSort (· ≤ ·)
          ((accumulateDeltas ds).map Prod.fst)).Pairwise (· ≤ ·) :=
        List.sorted_insertionSort (· ≤ ·) _
      have hnodup : (List.insertionSort (· ≤ ·)
          ((accumulateDeltas ds).map Prod.fst)).Nodup :=
        ((List.perm_insertionSort (· ≤ ·) _).nodup_iff).2 (nodup_keys_accumulate ds)
      exact (List.Pairwise.imp₂ (fun a b hle hne => lt_of_le_of_ne hle hne) hsorted
        hnodup).filter _
    · intro k
      rw [List.mem_filter]
      rw [List.Perm.mem_iff (List.perm_insertionSort (· ≤ ·) _)]
      rw [mem_keys_accumulate]
      simp
    · have hfun : ∀ k ∈ List.insertionSort (· ≤ ·) ((accumulateDeltas ds).map Prod.fst),
          (match lookupA k (accumulateDeltas ds) with
            | some r => if r.id ≠ "" then some r else none
            | none => none) =
            if decide ((canonRec (fragsAt k ds)).id ≠ "") then
              some (canonRec (fragsAt k ds)) else none := by
        intro k hk
        have hk' : fragsAt k ds ≠ [] := by
          rw [← mem_keys_accumulate ds k]
          exact (List.Perm.mem_iff (List.perm_insertionSort (· ≤ ·) _)).1 hk
        rw [lookupA_accumulate, if_neg hk']
        by_cases hid : (canonRec (fragsAt k ds)).id = "" <;> simp [hid]
      calc finalizeToolCalls ds
          = (List.insertionSort (· ≤ ·) ((accumulateDeltas ds).map Prod.fst)).filterMap
              (fun k =>
                match lookupA k (accumulateDeltas ds) with
                | some r => if r.id ≠ "" then some r else none
                | none => none) := rfl
        _ = _ := filterMap_eq_filter_map _ _ _ _ hfun
  refine ⟨lookupA_accumulate, hmain, ?_, by decide⟩
  intro ds r hr
  obtain ⟨ks, _, hmem, heq⟩ := hmain ds
  rw [heq] at hr
  obtain ⟨k, hk, rfl⟩ := List.mem_map.1 hr
  exact ((hmem k).1 hk).2

theorem toolcall_accumulator_spec_witness : (⟨"idA", "aA", "yy2"⟩ : ToolCall).id ≠ "" :=
  toolcall_accumulator_spec.2.2.1
    [⟨1, "idB", "b", "x"⟩, ⟨0, "idA", "a", "y"⟩, ⟨1, "", "B", "x2"⟩, ⟨0, "", "A", "y2"⟩]
    ⟨"idA", "aA", "yy2"⟩ (by decide)

/-- One OpenAI streamed chunk's delta (`chunk.choices[0].delta`):
`reasoning_content` and `content` with `""` embedding Python `None`
(`hasattr`/truthiness make them indistinguishable here), plus the tool-call
fragments. -/
structure OAIDelta where
  reasoning : String
  content : String
  toolCalls : List ToolCallDelta
deriving DecidableEq, Repr

/-- An OpenAI streamed chunk: `none` embeds a chunk with an empty
`choices` list (skipped by the `if chunk.choices:` guard). -/
def OAIChunk := Option OAIDelta

/-- The events yielded while processing one chunk of
openai_chat_completetion_model._handle_stream_response
(src/models/_openai_model.py, lines 60-113): a think event for a non-empty
reasoning delta, then an answer event for a non-empty content delta;
tool-call fragments yield nothing inline. -/
def chunkEvents : OAIChunk → List MEvent
  | none => []
  | some d =>
    (if d.reasoning ≠ "" then [MEvent.think d.reasoning] else []) ++
      (if d.content ≠ "" then [MEvent.answer d.content] else [])

/-- The tool-call fragments carried by one chunk. -/
def chunkDeltas : OAIChunk → List ToolCallDelta
  | none => []
  | some d => d.toolCalls

/-- openai_chat_completetion_model._handle_stream_response
(src/models/_openai_model.py, lines 52-141): the full yielded event
sequence of a non-raising stream — the per-chunk events, then one tool
event per finalized tool call, then the single end event. -/
def openaiStreamEvents (chunks : List OAIChunk) : List MEvent :=
  (chunks.flatMap chunkEvents) ++
    (finalizeToolCalls (chunks.flatMap chunkDeltas)).map MEvent.tool ++ [MEvent.endEv]

/-- openai_chat_completetion_model.model_chat with stream=True
(src/models/_openai_model.py, lines 24-50): `exn = some (k, m)` embeds a
provider transport that raises exception text `m` when the (k+1)-th chunk
is pulled (k = 0: the create call itself raises); the events of the first
k chunks have already been yielded, and the `except` block yields exactly
one error event and the generator ends. -/
def openaiModelChatStream (chunks : List OAIChunk) (exn : Option (Nat × String)) : List MEvent :=
  match exn with
  | none => openaiStreamEvents chunks
  | some (k, m) => ((chunks.take k).flatMap chunkEvents) ++ [MEvent.error ("Error: " ++ m)]

/-- A non-streaming OpenAI response's message (`response.choices[0].message`). -/
structure OAIMessage where
  content : String
  toolCalls : List ToolCall
deriving DecidableEq, Repr

/-- openai_chat_completetion_model.model_chat with stream=False
(src/models/_openai_model.py, lines 143-186 under the try of lines 24-50):
answer event for non-empty content, tool events, one end event; a raising
transport yields exactly one error event instead. -/
def openaiModelChatNormal (msg : OAIMessage) (exn : Option String) : List MEvent :=
  match exn with
  | some m => [MEvent.error ("Error: " ++ m)]
  | none =>
    (if msg.content ≠ "" then [MEvent.answer msg.content] else []) ++
      msg.toolCalls.map MEvent.tool ++ [MEvent.endEv]

/-- An Anthropic streamed chunk (`chunk.type` plus the payloads the handler
reads).  `blockStartOther` stands for a `content_block_start` whose block
type is none of tool_use/thinking/text. -/
inductive AChunk where
  | messageStart : AChunk
  | blockStartToolUse (id name : String) : AChunk
  | blockStartThinking : AChunk
  | blockStartText : AChunk
  | blockStartOther : AChunk
  | textDelta (s : String) : AChunk
  | thinkingDelta (s : String) : AChunk
  | inputJsonDelta (s : String) : AChunk
  | blockStop : AChunk
  | messageDelta : AChunk
  | messageStop : AChunk
deriving DecidableEq, Repr

/-- Current content-block type of the Anthropic stream handler
(`current_content_type`): `none` embeds Python `None`. -/
inductive ACType where
  | thinking : ACType
  | text : ACType
deriving DecidableEq, Repr

/-- Mutable state of anthropic_model._handle_stream_response
(src/models/_anthropic_model.py, lines 131-135). -/
structure AState where
  content : String
  thinking : String
  toolCalls : List ToolCall
  currentTool : Option ToolCall
  currentType : Option ACType
deriving DecidableEq, Repr

/-- One iteration of the chunk loop of
anthropic_model._handle_stream_response (src/models/_anthropic_model.py,
lines 137-216): the updated state and the events yielded for this chunk. -/
def aChunkStep (st : AState) (c : AChunk) : AState × List MEvent :=
  match c with
  | AChunk.messageStart => (st, [])
  | AChunk.blockStartToolUse id name =>
    ({ st with currentTool := some ⟨id, name, ""⟩ }, [])
  | AChunk.blockStartThinking => ({ st with currentType := some ACType.thinking }, [])
  | AChunk.blockStartText => ({ st with currentType := some ACType.text }, [])
  | AChunk.blockStartOther => (st, [])
  | AChunk.textDelta s =>
    match st.currentType with
    | some ACType.thinking => ({ st with thinking := st.thinking ++ s }, [MEvent.think s])
    | _ => ({ st with content := st.content ++ s }, [MEvent.answer s])
  | AChunk.thinkingDelta s => ({ st with thinking := st.thinking ++ s }, [MEvent.think s])
  | AChunk.inputJsonDelta s =>
    match st.currentTool with
    | some t => ({ st with currentTool := some { t with arguments := t.arguments ++ s } }, [])
    | none => (st, [])
  | AChunk.blockStop =>
    match st.currentTool with
    | some t =>
      ({ st with
          toolCalls := st.toolCalls ++ [t]
          currentTool := none
          currentType := none }, [])
    | none => ({ st with currentType := none }, [])
  | AChunk.messageDelta => (st, [])
  | AChunk.messageStop => (st, [])

/-- Run the Anthropic chunk loop over a list of chunks. -/
def aRun : List AChunk → AState → AState × List MEvent
  | [], st => (st, [])
  | c :: cs, st =>
    ((aRun cs (aChunkStep st c).1).1, (aChunkStep st c).2 ++ (aRun cs (aChunkStep st c).1).2)

/-- The initial state of the Anthropic stream handler. -/
def aInit : AState := ⟨"", "", [], none, none⟩

/-- anthropic_model._handle_stream_response (src/models/_anthropic_model.py,
lines 127-240): per-chunk events, then one tool event per completed
tool-call block, then the single end event. -/
def anthropicStreamEvents (chunks : List AChunk) : List MEvent :=
  (aRun chunks aInit).2 ++ (aRun chunks aInit).1.toolCalls.map MEvent.tool ++ [MEvent.endEv]

/-- anthropic_model.model_chat with stream=True
(src/models/_anthropic_model.py, lines 16-56): same raise embedding as the
OpenAI adapter (the except block of lines 48-56 yields exactly one error
event with the stringified cause and the generator ends). -/
def anthropicModelChatStream (chunks : List AChunk) (exn : Option (Nat × String)) : List MEvent :=
  match exn with
  | none => anthropicStreamEvents chunks
  | some (k, m) => (aRun (chunks.take k) aInit).2 ++ [MEvent.error ("Error: " ++ m)]

/-- A content block of a non-streaming Anthropic response. -/
inductive ANBlock where
  | text (s : String) : ANBlock
  | thinking (s : String) : ANBlock
  | toolUse (id name arguments : String) : ANBlock
deriving DecidableEq, Repr

/-- Accumulation loop of anthropic_model._handle_normal_response
(src/models/_anthropic_model.py, lines 250-268); a tool_use block's `input`
is serialized by `json.dumps`, embedded here as the resulting argument
string carried by the block. -/
def anBlocksFold (blocks : List ANBlock) : String × String × List ToolCall :=
  blocks.foldl
    (fun (acc : String × String × List ToolCall) b =>
      match b with
      | ANBlock.text s => (acc.1 ++ s, acc.2.1, acc.2.2)
      | ANBlock.thinking s => (acc.1, acc.2.1 ++ s, acc.2.2)
      | ANBlock.toolUse id name args => (acc.1, acc.2.1, acc.2.2 ++ [⟨id, name, args⟩]))
    ("", "", [])

/-- anthropic_model.model_chat with stream=False
(src/models/_anthropic_model.py, lines 242-308 under the try of lines
16-56): think event for non-empty accumulated thinking, answer event for
non-empty accumulated content, tool events, one end event; a raising
transport yields exactly one error event instead. -/
def anthropicModelChatNormal (blocks : List ANBlock) (exn : Option String) : List MEvent :=
  match exn with
  | some m => [MEvent.error ("Error: " ++ m)]
  | none =>
    (if (anBlocksFold blocks).2.1 ≠ "" then [MEvent.think (anBlocksFold blocks).2.1] else []) ++
      (if (anBlocksFold blocks).1 ≠ "" then [MEvent.answer (anBlocksFold blocks).1] else []) ++
      (anBlocksFold blocks).2.2.map MEvent.tool ++ [MEvent.endEv]

/-- Terminal events of the normalized event taxonomy: end and error. -/
def isTerminalEv : MEvent → Bool
  | MEvent.endEv => true
  | MEvent.error _ => true
  | _ => false

/-- An event sequence with exactly one terminal event, located at its end:
some (possibly empty) prefix of non-terminal events followed by one
terminal event, and nothing after it. -/
def terminalOk (es : List MEvent) : Prop :=
  ∃ pre t, es = pre ++ [t] ∧ isTerminalEv t = true ∧ ∀ e ∈ pre, isTerminalEv e = false

theorem nonterm_append {A B : List MEvent} (hA : ∀ e ∈ A, isTerminalEv e = false)
    (hB : ∀ e ∈ B, isTerminalEv e = false) : ∀ e ∈ A ++ B, isTerminalEv e = false := by
  intro e he
  rcases List.mem_append.1 he with h | h
  · exact hA e h
  · exact hB e h

theorem nonterm_map_tool (l : List ToolCall) :
    ∀ e ∈ l.map MEvent.tool, isTerminalEv e = false := by
  intro e he
  obtain ⟨tc, _, rfl⟩ := List.mem_map.1 he
  rfl

theorem nonterm_think_ite (c : Prop) [Decidable c] (s : String) :
    ∀ e ∈ (if c then [MEvent.think s] else []), isTerminalEv e = false := by
  intro e he
  split at he
  · simp at he
    subst he
    rfl
  · simp at he

theorem nonterm_answer_ite (c : Prop) [Decidable c] (s : String) :
    ∀ e ∈ (if c then [MEvent.answer s] else []), isTerminalEv e = false := by
  intro e he
  split at he
  · simp at he
    subst he
    rfl
  · simp at he

theorem chunkEvents_nonterminal (c : OAIChunk) :
    ∀ e ∈ chunkEvents c, isTerminalEv e = false := by
  cases c with
  | none => simp [chunkEvents]
  | some d =>
    exact nonterm_append (nonterm_think_ite _ _) (nonterm_answer_ite _ _)

theorem flatMap_chunkEvents_nonterminal (chunks : List OAIChunk) :
    ∀ e ∈ chunks.flatMap chunkEvents, isTerminalEv e = false := by
  intro e he
  obtain ⟨c, _, hc⟩ := List.mem_flatMap.1 he
  exact chunkEvents_nonterminal c e hc

theorem aChunkStep_nonterminal (st : AState) (c : AChunk) :
    ∀ e ∈ (aChunkStep st c).2, isTerminalEv e = false := by
  intro e he
  cases c with
  | textDelta s =>
    cases hct : st.currentType with
    | none =>
      simp [aChunkStep, hct] at he
      subst he
      rfl
    | some ct =>
      cases ct <;> simp [aChunkStep, hct] at he <;> subst he <;> rfl
  | thinkingDelta s =>
    simp [aChunkStep] at he
    subst he
    rfl
  | inputJsonDelta s =>
    cases hct : st.currentTool <;> simp [aChunkStep, hct] at he
  | blockStop =>
    cases hct : st.currentTool <;> simp [aChunkStep, hct] at he
  | messageStart => simp [aChunkStep] at he
  | blockStartToolUse id name => simp [aChunkStep] at he
  | blockStartThinking => simp [aChunkStep] at he
  | blockStartText => simp [aChunkStep] at he
  | blockStartOther => simp [aChunkStep] at he
  | messageDelta => simp [aChunkStep] at he
  | messageStop => simp [aChunkStep] at he

theorem aRun_nonterminal (cs : List AChunk) (st : AState) :
    ∀ e ∈ (aRun cs st).2, isTerminalEv e = false := by
  induction cs generalizing st with
  | nil => simp [aRun]
  | cons c cs ih =>
    exact nonterm_append (aChunkStep_nonterminal st c) (ih _)

/-- C1: for every provider adapter (the OpenAI-style and Anthropic-style
`model_chat` implementations, in both streaming and non-streaming mode —
the DeepSeek and Minimax variants inherit these unchanged) and every
modeled chunk stream or response object, including transports that raise,
the yielded event sequence ends in exactly one terminal event (end or
error), never both, never neither, and no event follows the terminal one
(in particular nothing follows an error event). -/
theorem adapter_terminal_event_spec :
    (∀ (chunks : List OAIChunk) (exn : Option (Nat × String)),
      terminalOk (openaiModelChatStream chunks exn)) ∧
    (∀ (msg : OAIMessage) (exn : Option String),
      terminalOk (openaiModelChatNormal msg exn)) ∧
    (∀ (chunks : List AChunk) (exn : Option (Nat × String)),
      terminalOk (anthropicModelChatStream chunks exn)) ∧
    (∀ (blocks : List ANBlock) (exn : Option String),
      terminalOk (anthropicModelChatNormal blocks exn)) := by
  refine ⟨?_, ?_, ?_, ?_⟩
  · intro chunks exn
    cases exn with
    | none =>
      refine ⟨chunks.flatMap chunkEvents ++
        (finalizeToolCalls (chunks.flatMap chunkDeltas)).map MEvent.tool, MEvent.endEv, ?_, rfl, ?_⟩
      · simp [openaiModelChatStream, openaiStreamEvents]
      · exact nonterm_append (flatMap_chunkEvents_nonterminal chunks) (nonterm_map_tool _)
    | some km =>
      obtain ⟨k, m⟩ := km
      exact ⟨(chunks.take k).flatMap chunkEvents, MEvent.error ("Error: " ++ m), rfl, rfl,
        flatMap_chunkEvents_nonterminal _⟩
  · intro msg exn
    cases exn with
    | none =>
      refine ⟨(if msg.content ≠ "" then [MEvent.answer msg.content] else []) ++
        msg.toolCalls.map MEvent.tool, MEvent.endEv, ?_, rfl, ?_⟩
      · simp [openaiModelChatNormal]
      · exact nonterm_append (nonterm_answer_ite _ _) (nonterm_map_tool _)
    | some m =>
      exact ⟨[], MEvent.error ("Error: " ++ m), rfl, rfl, by simp⟩
  · intro chunks exn
    cases exn with
    | none =>
      refine ⟨(aRun chunks aInit).2 ++ (aRun chunks aInit).1.toolCalls.map MEvent.tool,
        MEvent.endEv, ?_, rfl, ?_⟩
      · simp [anthropicModelChatStream, anthropicStreamEvents]
      · exact nonterm_append (aRun_nonterminal _ _) (nonterm_map_tool _)
    | some km =>
      obtain ⟨k, m⟩ := km
      exact ⟨(aRun (chunks.take k) aInit).2, MEvent.error ("Error: " ++ m), rfl, rfl,
        aRun_nonterminal _ _⟩
  · intro blocks exn
    cases exn with
    | none =>
      refine ⟨(if (anBlocksFold blocks).2.1 ≠ "" then [MEvent.think (anBlocksFold blocks).2.1]
          else []) ++
        ((if (anBlocksFold blocks).1 ≠ "" then [MEvent.answer (anBlocksFold blocks).1] else []) ++
          (anBlocksFold blocks).2.2.map MEvent.tool), MEvent.endEv, ?_, rfl, ?_⟩
      · simp [anthropicModelChatNormal]
      · exact nonterm_append (nonterm_think_ite _ _)
          (nonterm_append (nonterm_answer_ite _ _) (nonterm_map_tool _))
    | some m =>
      exact ⟨[], MEvent.error ("Error: " ++ m), rfl, rfl, by simp⟩

/-- Anthropic-format content block, as reconstructed by the Minimax
orchestrator (src/models/_minimax_anthropic_model.py, lines 141-161). -/
inductive ContentBlock where
  | thinkingB (thinking : String) : ContentBlock
  | textB (text : String) : ContentBlock
  | toolUseB (id name : String) (input : JValue) : ContentBlock

/-- Anthropic-format tool-result block
(src/models/_minimax_anthropic_model.py, lines 261-316). -/
structure ToolResultBlock where
  toolUseId : String
  content : String
deriving DecidableEq, Repr

/-- A message of the conversation history.  Each constructor embeds one of
the dict shapes this repository appends: `assistantText` is
`\x7b'role': 'assistant', 'content': text\x7d`; `assistantToolCalls` adds a
`tool_calls` list (base loop); `assistantDeepseek` additionally carries the
`reasoning_content` field (DeepSeek loop); `assistantBlocks`/`userBlocks`
carry Anthropic-style block arrays (Minimax loop); `toolMsg` is
`\x7b'role': 'tool', 'tool_call_id': id, 'content': text\x7d`. -/
inductive Message where
  | user (content : String) : Message
  | assistantText (content : String) : Message
  | assistantToolCalls (content : String) (tool_calls : List ToolCall) : Message
  | assistantDeepseek (content reasoning_content : String) (tool_calls : List ToolCall) : Message
  | assistantBlocks (blocks : List ContentBlock) : Message
  | userBlocks (blocks : List ToolResultBlock) : Message
  | toolMsg (tool_call_id : String) (content : String) : Message

/-- An outward SSE event of the orchestration loop (the JSON payload of one
`data:` frame). -/
inductive OutEvent where
  | thinking (content : String) : OutEvent
  | answer (content : String) : OutEvent
  | toolCalls (tcs : List ToolCall) : OutEvent
  | toolExecution (tool_name tool_call_id : String) (args : JValue) : OutEvent
  | toolResult (tool_name tool_call_id result : String) : OutEvent
  | error (message : String) : OutEvent
  | interrupted (message : String) : OutEvent
  | endEv : OutEvent

/-- The tool executor collaborator (`executor.execute_tool(name, args)`):
`Except.error m` embeds a raised exception with text `m`. -/
def Exec := String → JValue → Except String String

/-- The message carried by every interrupted event. -/
def interruptedMsg : String := "对话已被用户中断"

/-- Error text of a parse failure
(src/models/_model_base.py, line 323). -/
def parseFailMsg (args : String) : String := "工具参数不是有效的JSON: " ++ args

/-- Error text of an executor exception
(src/models/_model_base.py, line 360). -/
def execFailMsg (m : String) : String := "工具执行错误: " ++ m

/-- The interrupt predicate, embedded as a function of the number of polls
made so far (the source polls a caller-supplied zero-argument callable at
fixed program points; the poll count enumerates those calls in order). -/
def noInterrupt : Nat → Bool := fun _ => false

/-- Result of processing one round's inbound adapter events
(src/models/_model_base.py, lines 198-241): interrupted, errored, or
completed with the accumulated reasoning/answer text and tool calls.  In
each case the outward events emitted so far and the updated poll count are
carried along. -/
inductive ProcOut where
  | interruptedP (evs : List OutEvent) (polls : Nat) : ProcOut
  | erroredP (evs : List OutEvent) (polls : Nat) : ProcOut
  | doneP (evs : List OutEvent) (reasoning answer : String) (tools : List ToolCall)
      (polls : Nat) : ProcOut

/-- Prepend one already-yielded outward event to a `ProcOut`. -/
def ProcOut.consEv (e : OutEvent) : ProcOut → ProcOut
  | ProcOut.interruptedP evs p => ProcOut.interruptedP (e :: evs) p
  | ProcOut.erroredP evs p => ProcOut.erroredP (e :: evs) p
  | ProcOut.doneP evs r a ts p => ProcOut.doneP (e :: evs) r a ts p

/-- The inbound-event loop shared verbatim by the base, DeepSeek and
Minimax orchestrators (src/models/_model_base.py lines 198-241,
src/models/_deepseek_openai_model.py lines 68-110,
src/models/_minimax_anthropic_model.py lines 98-139): the interrupt
predicate is polled before processing each item; an error item emits one
outward error event and aborts; think/answer items emit outward events and
accumulate; tool items accumulate; end items only print. -/
def processEvents (ip : Nat → Bool) :
    List MEvent → Nat → String → String → List ToolCall → ProcOut
  | [], p, r, a, ts => ProcOut.doneP [] r a ts p
  | item :: rest, p, r, a, ts =>
    if ip p then ProcOut.interruptedP [OutEvent.interrupted interruptedMsg] (p + 1)
    else
      match item with
      | MEvent.error s => ProcOut.erroredP [OutEvent.error s] (p + 1)
      | MEvent.think s => (processEvents ip rest (p + 1) (r ++ s) a ts).consEv (OutEvent.thinking s)
      | MEvent.answer s => (processEvents ip rest (p + 1) r (a ++ s) ts).consEv (OutEvent.answer s)
      | MEvent.tool tc => processEvents ip rest (p + 1) r a (ts ++ [tc])
      | MEvent.endEv => processEvents ip rest (p + 1) r a ts

/-- Result of the base per-tool execution loop
(src/models/_model_base.py, lines 308-363): the outward events, the
`tool_calls` entries added to the (already appended, mutated in place)
assistant message, the role=tool messages appended after it, the
`(name, args)` invocations actually made on the executor (instrumenting
call site line 344), whether an interrupt stopped the loop, and the final
poll count. -/
structure ExecOutB where
  events : List OutEvent
  entries : List ToolCall
  toolMsgs : List Message
  calls : List (String × JValue)
  interrupted : Bool
  polls : Nat

/-- model_base._execute_tools_in_loop, per-tool loop
(src/models/_model_base.py, lines 310-363): poll the interrupt predicate
before each tool; on parse failure emit an error tool_result and append an
error role=tool message without invoking the executor; on success emit
tool_execution, invoke the executor, emit tool_result and register the
entry; on an executor exception emit the stringified failure as the
tool_result.  Only the success path registers the entry into the assistant
message's `tool_calls` (line 352). -/
def execToolsBaseGo (ip : Nat → Bool) (exec : Exec) : List ToolCall → Nat → ExecOutB
  | [], p => ⟨[], [], [], [], false, p⟩
  | t :: ts, p =>
    if ip p then ⟨[OutEvent.interrupted interruptedMsg], [], [], [], true, p + 1⟩
    else
      match tryParseToolArguments t.arguments with
      | none =>
        let r := execToolsBaseGo ip exec ts (p + 1)
        ⟨OutEvent.toolResult t.name t.id (parseFailMsg t.arguments) :: r.events, r.entries,
          Message.toolMsg t.id (parseFailMsg t.arguments) :: r.toolMsgs, r.calls,
          r.interrupted, r.polls⟩
      | some args =>
        match exec t.name args with
        | Except.ok res =>
          let r := execToolsBaseGo ip exec ts (p + 1)
          ⟨OutEvent.toolExecution t.name t.id args ::
              OutEvent.toolResult t.name t.id res :: r.events,
            t :: r.entries, Message.toolMsg t.id res :: r.toolMsgs,
            (t.name, args) :: r.calls, r.interrupted, r.polls⟩
        | Except.error m =>
          let r := execToolsBaseGo ip exec ts (p + 1)
          ⟨OutEvent.toolExecution t.name t.id args ::
              OutEvent.toolResult t.name t.id (execFailMsg m) :: r.events,
            r.entries, Message.toolMsg t.id (execFailMsg m) :: r.toolMsgs,
            (t.name, args) :: r.calls, r.interrupted, r.polls⟩

/-- Outcome of one round of an orchestration loop.  `aborted` embeds a
`return` out of the whole generator (interrupt during inbound processing,
inbound error event, or interrupt before tool execution); `toolsDone`
embeds the fall-through after `yield from` of the tool-execution helper —
the while loop then continues because `tool_info` is non-empty, whether or
not the helper was interrupted; `noTools` embeds a round with zero tool
calls, after which the while loop exits. -/
inductive RoundOut where
  | aborted (events : List OutEvent) (msgs : List Message) (polls : Nat) : RoundOut
  | toolsDone (events : List OutEvent) (msgs : List Message) (polls : Nat) : RoundOut
  | noTools (events : List OutEvent) (msgs : List Message) (answer : String)
      (polls : Nat) : RoundOut

/-- One round of model_base.chatToNextLoop (src/models/_model_base.py,
lines 183-256): call the model, process the inbound events, then either
append the answer (no tools), or poll the interrupt once more (line 246)
and run the tool loop after appending the assistant message
`\x7b"role": "assistant", "content": "", "tool_calls": []\x7d` of line 291,
whose `tool_calls` list ends up holding the entries registered by the
success paths of the tool loop. -/
def baseRoundStep (model : List Message → List MEvent) (exec : Exec) (ip : Nat → Bool)
    (msgs : List Message) (p : Nat) : RoundOut :=
  match processEvents ip (model msgs) p "" "" [] with
  | ProcOut.interruptedP evs p' => RoundOut.aborted evs msgs p'
  | ProcOut.erroredP evs p' => RoundOut.aborted evs msgs p'
  | ProcOut.doneP evs _ a tools p' =>
    if tools = [] then
      RoundOut.noTools evs (if a ≠ "" then msgs ++ [Message.assistantText a] else msgs) a p'
    else if ip p' then
      RoundOut.aborted (evs ++ [OutEvent.interrupted interruptedMsg]) msgs (p' + 1)
    else
      RoundOut.toolsDone
        (evs ++ OutEvent.toolCalls tools :: (execToolsBaseGo ip exec tools (p' + 1)).events)
        (msgs ++ Message.assistantToolCalls "" (execToolsBaseGo ip exec tools (p' + 1)).entries ::
          (execToolsBaseGo ip exec tools (p' + 1)).toolMsgs)
        (execToolsBaseGo ip exec tools (p' + 1)).polls

/-- The dedup guard of the base loop's post-loop append
(src/models/_model_base.py, lines 260-263): `messages[-1]` has
role "assistant" and string content equal to the answer. -/
def isAssistantWithContent : Message → String → Bool
  | Message.assistantText c, a => c == a
  | Message.assistantToolCalls c _, a => c == a
  | Message.assistantDeepseek c _ _, a => c == a
  | _, _ => false

/-- The base loop's post-loop append (src/models/_model_base.py, lines
258-263): when the final round's answer is non-empty and the trailing
message is not already that assistant answer, append it. -/
def dedupTrailingAppend (msgs : List Message) (a : String) : List Message :=
  if a = "" then msgs
  else if (match msgs.getLast? with
      | some m => isAssistantWithContent m a
      | none => false) then msgs
  else msgs ++ [Message.assistantText a]

/-- model_base.chatToNextLoop (src/models/_model_base.py, lines 181-272),
fueled: `none` means the while loop did not terminate within `fuel`
rounds.  An aborted round is a `return` (no end event); a no-tool round
exits the loop, runs the post-loop dedup append and yields the end event;
a tool round always continues the loop. -/
def chatToNextLoopGo (model : List Message → List MEvent) (exec : Exec) (ip : Nat → Bool) :
    Nat → List Message → Nat → Option (List OutEvent × List Message)
  | 0, _, _ => none
  | fuel + 1, msgs, p =>
    match baseRoundStep model exec ip msgs p with
    | RoundOut.aborted evs msgs' _ => some (evs, msgs')
    | RoundOut.noTools evs msgs' a _ =>
      some (evs ++ [OutEvent.endEv], dedupTrailingAppend msgs' a)
    | RoundOut.toolsDone evs msgs' p' =>
      match chatToNextLoopGo model exec ip fuel msgs' p' with
      | none => none
      | some (evs2, msgs2) => some (evs ++ evs2, msgs2)

/-- model_base.chatToNextLoop from its entry point (poll count 0). -/
def chatToNextLoopBase (fuel : Nat) (model : List Message → List MEvent) (exec : Exec)
    (ip : Nat → Bool) (msgs : List Message) : Option (List OutEvent × List Message) :=
  chatToNextLoopGo model exec ip fuel msgs 0

/-- Result of the DeepSeek per-tool execution loop
(src/models/_deepseek_openai_model.py, lines 200-271): identical to the
base loop except that the assistant message is not touched (its
`tool_calls` were pre-registered before execution), so only the outward
events and the appended role=tool messages are produced. -/
structure ExecOutDS where
  events : List OutEvent
  toolMsgs : List Message
  interrupted : Bool
  polls : Nat

/-- deepseek_openai_model._execute_tools_in_loop_deepseek, per-tool loop
(src/models/_deepseek_openai_model.py, lines 200-271). -/
def execToolsDSGo (ip : Nat → Bool) (exec : Exec) : List ToolCall → Nat → ExecOutDS
  | [], p => ⟨[], [], false, p⟩
  | t :: ts, p =>
    if ip p then ⟨[OutEvent.interrupted interruptedMsg], [], true, p + 1⟩
    else
      match tryParseToolArguments t.arguments with
      | none =>
        let r := execToolsDSGo ip exec ts (p + 1)
        ⟨OutEvent.toolResult t.name t.id (parseFailMsg t.arguments) :: r.events,
          Message.toolMsg t.id (parseFailMsg t.arguments) :: r.toolMsgs, r.interrupted, r.polls⟩
      | some args =>
        match exec t.name args with
        | Except.ok res =>
          let r := execToolsDSGo ip exec ts (p + 1)
          ⟨OutEvent.toolExecution t.name t.id args ::
              OutEvent.toolResult t.name t.id res :: r.events,
            Message.toolMsg t.id res :: r.toolMsgs, r.interrupted, r.polls⟩
        | Except.error m =>
          let r := execToolsDSGo ip exec ts (p + 1)
          ⟨OutEvent.toolExecution t.name t.id args ::
              OutEvent.toolResult t.name t.id (execFailMsg m) :: r.events,
            Message.toolMsg t.id (execFailMsg m) :: r.toolMsgs, r.interrupted, r.polls⟩

/-- One round of deepseek_openai_model.chatToNextLoop
(src/models/_deepseek_openai_model.py, lines 53-128): the no-tool branch
appends `\x7b'role': 'assistant', 'content': answer\x7d` only (the
reasoning text is dropped, line 128); the tool branch appends, before
execution, one assistant message that always carries the
`reasoning_content` field (even when empty) and the complete `tool_calls`
list (lines 164-193), then yields the tool_calls event and runs the
per-tool loop. -/
def deepseekRoundStep (model : List Message → List MEvent) (exec : Exec) (ip : Nat → Bool)
    (msgs : List Message) (p : Nat) : RoundOut :=
  match processEvents ip (model msgs) p "" "" [] with
  | ProcOut.interruptedP evs p' => RoundOut.aborted evs msgs p'
  | ProcOut.erroredP evs p' => RoundOut.aborted evs msgs p'
  | ProcOut.doneP evs r a tools p' =>
    if tools = [] then
      RoundOut.noTools evs (if a ≠ "" then msgs ++ [Message.assistantText a] else msgs) a p'
    else if ip p' then
      RoundOut.aborted (evs ++ [OutEvent.interrupted interruptedMsg]) msgs (p' + 1)
    else
      RoundOut.toolsDone
        (evs ++ OutEvent.toolCalls tools :: (execToolsDSGo ip exec tools (p' + 1)).events)
        (msgs ++ Message.assistantDeepseek a r tools ::
          (execToolsDSGo ip exec tools (p' + 1)).toolMsgs)
        (execToolsDSGo ip exec tools (p' + 1)).polls

/-- deepseek_openai_model.chatToNextLoop
(src/models/_deepseek_openai_model.py, lines 15-137), fueled: like the
base loop, but with no post-loop dedup append (the DeepSeek override has
no counterpart of lines 258-263 of the base class). -/
def deepseekChatToNextLoopGo (model : List Message → List MEvent) (exec : Exec)
    (ip : Nat → Bool) : Nat → List Message → Nat → Option (List OutEvent × List Message)
  | 0, _, _ => none
  | fuel + 1, msgs, p =>
    match deepseekRoundStep model exec ip msgs p with
    | RoundOut.aborted evs msgs' _ => some (evs, msgs')
    | RoundOut.noTools evs msgs' _ _ => some (evs ++ [OutEvent.endEv], msgs')
    | RoundOut.toolsDone evs msgs' p' =>
      match deepseekChatToNextLoopGo model exec ip fuel msgs' p' with
      | none => none
      | some (evs2, msgs2) => some (evs ++ evs2, msgs2)

/-- The tool_use blocks of the Minimax content-block array
(src/models/_minimax_anthropic_model.py, lines 155-161): each block's
`input` is `json.loads` of the accumulated argument text; `none` embeds the
`json.JSONDecodeError` raised on the first unparseable argument string
(caught only by the outer except of lines 207-212). -/
def toolUseBlocks : List ToolCall → Option (List ContentBlock)
  | [] => some []
  | t :: ts =>
    match jsonLoads t.arguments with
    | none => none
    | some v => (toolUseBlocks ts).map (fun bs => ContentBlock.toolUseB t.id t.name v :: bs)

/-- The full ordered content-block array of a Minimax round
(src/models/_minimax_anthropic_model.py, lines 141-161): a thinking block
if the thinking text is non-empty, then a text block if the answer text is
non-empty, then one tool_use block per tool call in order. -/
def buildBlocks (thinking answer : String) (tools : List ToolCall) :
    Option (List ContentBlock) :=
  (toolUseBlocks tools).map
    (fun tbs =>
      (if thinking ≠ "" then [ContentBlock.thinkingB thinking] else []) ++
        (if answer ≠ "" then [ContentBlock.textB answer] else []) ++ tbs)

/-- Abstracted text of the `json.JSONDecodeError` stringified by the outer
except handler of the Minimax loop. -/
def jsonErrText : String := "JSONDecodeError"

/-- Result of the Minimax per-tool execution loop
(src/models/_minimax_anthropic_model.py, lines 236-316): outward events
and the collected tool_result blocks. -/
structure ExecOutMM where
  events : List OutEvent
  blocks : List ToolResultBlock
  interrupted : Bool
  polls : Nat

/-- minimax_anthropic_model._execute_tools_minimax_style, per-tool loop
(src/models/_minimax_anthropic_model.py, lines 238-316). -/
def execToolsMMGo (ip : Nat → Bool) (exec : Exec) : List ToolCall → Nat → ExecOutMM
  | [], p => ⟨[], [], false, p⟩
  | t :: ts, p =>
    if ip p then ⟨[OutEvent.interrupted interruptedMsg], [], true, p + 1⟩
    else
      match tryParseToolArguments t.arguments with
      | none =>
        let r := execToolsMMGo ip exec ts (p + 1)
        ⟨OutEvent.toolResult t.name t.id (parseFailMsg t.arguments) :: r.events,
          ToolResultBlock.mk t.id (parseFailMsg t.arguments) :: r.blocks, r.interrupted, r.polls⟩
      | some args =>
        match exec t.name args with
        | Except.ok res =>
          let r := execToolsMMGo ip exec ts (p + 1)
          ⟨OutEvent.toolExecution t.name t.id args ::
              OutEvent.toolResult t.name t.id res :: r.events,
            ToolResultBlock.mk t.id res :: r.blocks, r.interrupted, r.polls⟩
        | Except.error m =>
          let r := execToolsMMGo ip exec ts (p + 1)
          ⟨OutEvent.toolExecution t.name t.id args ::
              OutEvent.toolResult t.name t.id (execFailMsg m) :: r.events,
            ToolResultBlock.mk t.id (execFailMsg m) :: r.blocks, r.interrupted, r.polls⟩

/-- One round of minimax_anthropic_model.chatToNextLoop
(src/models/_minimax_anthropic_model.py, lines 80-203): build the
content-block array (a `json.loads` failure on some argument string raises
into the outer except, which yields one error event and ends the
generator, with no history mutation); with tool calls and no interrupt,
append the single assistant message carrying the whole block array, yield
the tool_calls event, run the per-tool loop, and append the single
user-role message with the ordered tool_result block array — unless the
per-tool loop was interrupted, in which case its early return skips that
append (line 319 unreached). -/
def minimaxRoundStep (model : List Message → List MEvent) (exec : Exec) (ip : Nat → Bool)
    (msgs : List Message) (p : Nat) : RoundOut :=
  match processEvents ip (model msgs) p "" "" [] with
  | ProcOut.interruptedP evs p' => RoundOut.aborted evs msgs p'
  | ProcOut.erroredP evs p' => RoundOut.aborted evs msgs p'
  | ProcOut.doneP evs r a tools p' =>
    if tools = [] then
      RoundOut.noTools evs (if a ≠ "" then msgs ++ [Message.assistantText a] else msgs) a p'
    else
      match buildBlocks r a tools with
      | none => RoundOut.aborted (evs ++ [OutEvent.error ("响应错误: " ++ jsonErrText)]) msgs p'
      | some blocks =>
        if ip p' then
          RoundOut.aborted (evs ++ [OutEvent.interrupted interruptedMsg]) msgs (p' + 1)
        else
          RoundOut.toolsDone
            (evs ++ OutEvent.toolCalls tools :: (execToolsMMGo ip exec tools (p' + 1)).events)
            (msgs ++ Message.assistantBlocks blocks ::
              (if (execToolsMMGo ip exec tools (p' + 1)).interrupted then []
                else [Message.userBlocks (execToolsMMGo ip exec tools (p' + 1)).blocks]))
            (execToolsMMGo ip exec tools (p' + 1)).polls

theorem skipWs_all_ws (cs : List Char) (h : ∀ c ∈ cs, isWsChar c = true) : skipWs cs = [] := by
  induction cs with
  | nil => rfl
  | cons c cs ih =>
    rw [skipWs, if_pos (h c (List.mem_cons_self c cs))]
    exact ih (fun c' hc' => h c' (List.mem_cons_of_mem c hc'))

theorem jsonLoads_blank (s : String) (h : isBlankStr s = true) : jsonLoads s = none := by
  have hws : skipWs s.data = [] :=
    skipWs_all_ws s.data (by simpa [isBlankStr, List.all_eq_true] using h)
  rw [jsonLoads, parseVal, hws]

/-- C3: model_base._try_parse_tool_arguments never raises (it is a total
function into `Option`): empty or whitespace-only input yields the empty
argument dict; otherwise a strict JSON parse is attempted, and a parse
that succeeds is returned unchanged; on strict-parse failure exactly one
repair pass replaces single quotes by double quotes and the result is that
re-parse (with `none` as the failure sentinel).  Concretely,
parse("") = \x7b\x7d, parse("\x7b'a': 1\x7d") = \x7b a: 1 \x7d after
repair, parse("\x7bbad") = the failure sentinel. -/
theorem argument_parser_spec :
    (∀ s : String, isBlankStr s = true → tryParseToolArguments s = some (JValue.obj [])) ∧
    (∀ (s : String) (v : JValue), jsonLoads s = some v → tryParseToolArguments s = some v) ∧
    (∀ s : String, isBlankStr s = false → jsonLoads s = none →
      tryParseToolArguments s = jsonLoads (replaceChar s squoteChar dquoteChar)) ∧
    tryParseToolArguments "" = some (JValue.obj []) ∧
    tryParseToolArguments "\x7b\x27a\x27: 1\x7d" = some (JValue.obj [("a", JValue.num 1)]) ∧
    tryParseToolArguments "\x7bbad" = none := by
  refine ⟨?_, ?_, ?_, rfl, rfl, rfl⟩
  · intro s h
    rw [tryParseToolArguments, if_pos h]
  · intro s v h
    have hb : isBlankStr s = false := by
      by_contra hb'
      rw [jsonLoads_blank s (by simpa using hb')] at h
      exact Option.noConfusion h
    rw [tryParseToolArguments, if_neg (by simp [hb]), h]
  · intro s hb hl
    rw [tryParseToolArguments, if_neg (by simp [hb]), hl]

theorem argument_parser_spec_witness :
    tryParseToolArguments "  " = some (JValue.obj []) ∧
    tryParseToolArguments "\x7b\x22k\x22: 2\x7d" = some (JValue.obj [("k", JValue.num 2)]) ∧
    tryParseToolArguments "\x7bbad" = jsonLoads (replaceChar "\x7bbad" squoteChar dquoteChar) :=
  ⟨argument_parser_spec.1 "  " rfl,
    argument_parser_spec.2.1 "\x7b\x22k\x22: 2\x7d" (JValue.obj [("k", JValue.num 2)]) rfl,
    argument_parser_spec.2.2.1 "\x7bbad" rfl rfl⟩

/-- Whether a tool call both parses and executes successfully. -/
def toolOk (exec : Exec) (t : ToolCall) : Bool :=
  match tryParseToolArguments t.arguments with
  | none => false
  | some args =>
    match exec t.name args with
    | Except.ok _ => true
    | Except.error _ => false

/-- The result string recorded for one tool call: the parse-failure text,
the executor's result, or the stringified executor exception. -/
def resultString (exec : Exec) (t : ToolCall) : String :=
  match tryParseToolArguments t.arguments with
  | none => parseFailMsg t.arguments
  | some args =>
    match exec t.name args with
    | Except.ok res => res
    | Except.error m => execFailMsg m

/-- The outward events produced for one tool call, independent of its
siblings: parse failure yields only the error tool_result (no
tool_execution, hence no executor invocation); otherwise tool_execution
followed by the tool_result. -/
def perToolEvents (exec : Exec) (t : ToolCall) : List OutEvent :=
  match tryParseToolArguments t.arguments with
  | none => [OutEvent.toolResult t.name t.id (parseFailMsg t.arguments)]
  | some args =>
    [OutEvent.toolExecution t.name t.id args,
      OutEvent.toolResult t.name t.id (resultString exec t)]

/-- Factorization of the base per-tool loop under no interrupt: every tool
is processed, in order, independently of its siblings; the executor is
invoked exactly for the tools whose arguments parse; only fully successful
tools are registered into the assistant message's `tool_calls`. -/
theorem execToolsBase_noInterrupt (exec : Exec) (tools : List ToolCall) (p : Nat) :
    execToolsBaseGo noInterrupt exec tools p =
      ⟨tools.flatMap (perToolEvents exec),
        tools.filter (toolOk exec),
        tools.map (fun t => Message.toolMsg t.id (resultString exec t)),
        tools.filterMap (fun t => (tryParseToolArguments t.arguments).map (fun a => (t.name, a))),
        false, p + tools.length⟩ := by
  induction tools generalizing p with
  | nil => simp [execToolsBaseGo]
  | cons t ts ih =>
    cases hp : tryParseToolArguments t.arguments with
    | none =>
      simp [execToolsBaseGo, noInterrupt, hp, ih, perToolEvents, toolOk, resultString,
        List.filter_cons, List.filterMap_cons]
      omega
    | some args =>
      cases he : exec t.name args with
      | ok res =>
        simp [execToolsBaseGo, noInterrupt, hp, he, ih, perToolEvents, toolOk, resultString,
          List.filter_cons, List.filterMap_cons]
        omega
      | error m =>
        simp [execToolsBaseGo, noInterrupt, hp, he, ih, perToolEvents, toolOk, resultString,
          List.filter_cons, List.filterMap_cons]
        omega

/-- A tool round of the base loop under no interrupt, in closed form:
derived from the factorization of the per-tool loop. -/
theorem baseRoundStep_toolsRound (model : List Message → List MEvent) (exec : Exec)
    (msgs : List Message) (p : Nat) (evs : List OutEvent) (r a : String)
    (tools : List ToolCall) (p' : Nat)
    (h : processEvents noInterrupt (model msgs) p "" "" [] = ProcOut.doneP evs r a tools p')
    (ht : tools ≠ []) :
    baseRoundStep model exec noInterrupt msgs p =
      RoundOut.toolsDone
        (evs ++ OutEvent.toolCalls tools :: tools.flatMap (perToolEvents exec))
        (msgs ++ Message.assistantToolCalls "" (tools.filter (toolOk exec)) ::
          tools.map (fun t => Message.toolMsg t.id (resultString exec t)))
        ((p' + 1) + tools.length) := by
  unfold baseRoundStep
  rw [h]
  simp only [if_neg ht, noInterrupt, Bool.false_eq_true, if_false, execToolsBase_noInterrupt]

theorem processEvents_done_answer_mem (items : List MEvent) :
    ∀ (p : Nat) (r a : String) (ts : List ToolCall) (evs : List OutEvent) (rr aa : String)
      (tools : List ToolCall) (p' : Nat),
      processEvents noInterrupt items p r a ts = ProcOut.doneP evs rr aa tools p' →
      ∀ s, MEvent.answer s ∈ items → OutEvent.answer s ∈ evs := by
  induction items with
  | nil =>
    intro p r a ts evs rr aa tools p' h s hs
    simp at hs
  | cons item rest ih =>
    intro p r a ts evs rr aa tools p' h s hs
    cases item with
    | error s' =>
      simp only [processEvents] at h
      rw [if_neg (by simp [noInterrupt])] at h
      exact ProcOut.noConfusion h
    | think s' =>
      simp only [processEvents] at h
      rw [if_neg (by simp [noInterrupt])] at h
      cases hrec : processEvents noInterrupt rest (p + 1) (r ++ s') a ts with
      | interruptedP evs0 p0 =>
        rw [hrec] at h
        exact ProcOut.noConfusion h
      | erroredP evs0 p0 =>
        rw [hrec] at h
        exact ProcOut.noConfusion h
      | doneP evs0 rr0 aa0 ts0 p0 =>
        rw [hrec] at h
        simp only [ProcOut.consEv] at h
        injection h with h1 h2 h3 h4 h5
        rcases List.mem_cons.1 hs with heq | hmem
        · exact MEvent.noConfusion heq
        · rw [← h1]
          exact List.mem_cons_of_mem _ (ih _ _ _ _ _ _ _ _ _ hrec s hmem)
    | answer s' =>
      simp only [processEvents] at h
      rw [if_neg (by simp [noInterrupt])] at h
      cases hrec : processEvents noInterrupt rest (p + 1) r (a ++ s') ts with
      | interruptedP evs0 p0 =>
        rw [hrec] at h
        exact ProcOut.noConfusion h
      | erroredP evs0 p0 =>
        rw [hrec] at h
        exact ProcOut.noConfusion h
      | doneP evs0 rr0 aa0 ts0 p0 =>
        rw [hrec] at h
        simp only [ProcOut.consEv] at h
        injection h with h1 h2 h3 h4 h5
        rcases List.mem_cons.1 hs with heq | hmem
        · injection heq with hseq
          rw [← h1, hseq]
          exact List.mem_cons_self _ _
        · rw [← h1]
          exact List.mem_cons_of_mem _ (ih _ _ _ _ _ _ _ _ _ hrec s hmem)
    | tool tc =>
      simp only [processEvents] at h
      rw [if_neg (by simp [noInterrupt])] at h
      rcases List.mem_cons.1 hs with heq | hmem
      · exact MEvent.noConfusion heq
      · exact ih _ _ _ _ _ _ _ _ _ h s hmem
    | endEv =>
      simp only [processEvents] at h
      rw [if_neg (by simp [noInterrupt])] at h
      rcases List.mem_cons.1 hs with heq | hmem
      · exact MEvent.noConfusion heq
      · exact ih _ _ _ _ _ _ _ _ _ h s hmem

/-- C4: per-tool failures in the base loop are isolated
(model_base._execute_tools_in_loop, src/models/_model_base.py, lines
310-363).  Under no interrupt: (1) the whole run factors per tool — every
tool in the round, in order, yields its own events and appends its own
role=tool message regardless of its siblings' outcomes, the loop is never
cut short (`interrupted = false`), and the executor is invoked exactly for
the tools whose arguments parse (so never for a parse failure); (2) a
parse-failure tool yields exactly one tool_result event with the
descriptive error string, which is also the appended message content, and
no tool_execution event; (3) an executor exception is caught and surfaced
as a tool_result carrying the stringified failure; (4) a round that
accumulated tools always continues the conversation loop
(`RoundOut.toolsDone`, never an abort). -/
theorem per_tool_failure_isolation_spec :
    (∀ (exec : Exec) (tools : List ToolCall) (p : Nat),
      (execToolsBaseGo noInterrupt exec tools p).events = tools.flatMap (perToolEvents exec) ∧
      (execToolsBaseGo noInterrupt exec tools p).toolMsgs =
        tools.map (fun t => Message.toolMsg t.id (resultString exec t)) ∧
      (execToolsBaseGo noInterrupt exec tools p).calls =
        tools.filterMap
          (fun t => (tryParseToolArguments t.arguments).map (fun a => (t.name, a))) ∧
      (execToolsBaseGo noInterrupt exec tools p).interrupted = false) ∧
    (∀ (exec : Exec) (t : ToolCall), tryParseToolArguments t.arguments = none →
      perToolEvents exec t = [OutEvent.toolResult t.name t.id (parseFailMsg t.arguments)] ∧
      resultString exec t = parseFailMsg t.arguments) ∧
    (∀ (exec : Exec) (t : ToolCall) (args : JValue) (m : String),
      tryParseToolArguments t.arguments = some args → exec t.name args = Except.error m →
      perToolEvents exec t =
        [OutEvent.toolExecution t.name t.id args,
          OutEvent.toolResult t.name t.id (execFailMsg m)]) ∧
    (∀ (model : List Message → List MEvent) (exec : Exec) (msgs : List Message) (p : Nat)
      (evs : List OutEvent) (r a : String) (tools : List ToolCall) (p' : Nat),
      processEvents noInterrupt (model msgs) p "" "" [] = ProcOut.doneP evs r a tools p' →
      tools ≠ [] →
      baseRoundStep model exec noInterrupt msgs p =
        RoundOut.toolsDone
          (evs ++ OutEvent.toolCalls tools :: tools.flatMap (perToolEvents exec))
          (msgs ++ Message.assistantToolCalls "" (tools.filter (toolOk exec)) ::
            tools.map (fun t => Message.toolMsg t.id (resultString exec t)))
          ((p' + 1) + tools.length)) := by
  refine ⟨?_, ?_, ?_, baseRoundStep_toolsRound⟩
  · intro exec tools p
    rw [execToolsBase_noInterrupt]
    exact ⟨rfl, rfl, rfl, rfl⟩
  · intro exec t hp
    rw [perToolEvents, resultString, hp]
    exact ⟨rfl, rfl⟩
  · intro exec t args m hp he
    simp [perToolEvents, resultString, hp, he]

theorem per_tool_failure_isolation_spec_witness :
    perToolEvents (fun _ _ => Except.ok "ok") ⟨"t1", "f", "\x7bbad"⟩ =
      [OutEvent.toolResult "f" "t1" (parseFailMsg "\x7bbad")] ∧
    perToolEvents (fun _ _ => Except.error "boom") ⟨"t2", "g", ""⟩ =
      [OutEvent.toolExecution "g" "t2" (JValue.obj []),
        OutEvent.toolResult "g" "t2" (execFailMsg "boom")] ∧
    baseRoundStep (fun _ => [MEvent.tool ⟨"t1", "f", "\x7b\x7d"⟩, MEvent.endEv])
        (fun _ _ => Except.ok "ok") noInterrupt [] 0 =
      RoundOut.toolsDone
        [OutEvent.toolCalls [⟨"t1", "f", "\x7b\x7d"⟩],
          OutEvent.toolExecution "f" "t1" (JValue.obj []), OutEvent.toolResult "f" "t1" "ok"]
        [Message.assistantToolCalls "" [⟨"t1", "f", "\x7b\x7d"⟩], Message.toolMsg "t1" "ok"] 4 :=
  ⟨(per_tool_failure_isolation_spec.2.1 (fun _ _ => Except.ok "ok") ⟨"t1", "f", "\x7bbad"⟩ rfl).1,
    per_tool_failure_isolation_spec.2.2.1 (fun _ _ => Except.error "boom") ⟨"t2", "g", ""⟩
      (JValue.obj []) "boom" rfl rfl,
    per_tool_failure_isolation_spec.2.2.2 (fun _ => [MEvent.tool ⟨"t1", "f", "\x7b\x7d"⟩,
      MEvent.endEv]) (fun _ _ => Except.ok "ok") [] 0 [] "" "" [⟨"t1", "f", "\x7b\x7d"⟩] 2 rfl
      (List.cons_ne_nil _ _)⟩

/-- C10: in the base orchestrator's tool-call branch, the assistant message
appended to history (src/models/_model_base.py, line 291) always has
content equal to the empty string, and the round's answer deltas, while
emitted outward as answer events, are never persisted: the only messages
the round appends are that empty-content assistant message and role=tool
result messages. -/
theorem tool_round_answer_not_persisted_spec :
    ∀ (model : List Message → List MEvent) (exec : Exec) (msgs : List Message) (p : Nat)
      (evs : List OutEvent) (r a : String) (tools : List ToolCall) (p' : Nat),
      processEvents noInterrupt (model msgs) p "" "" [] = ProcOut.doneP evs r a tools p' →
      tools ≠ [] →
      (baseRoundStep model exec noInterrupt msgs p =
        RoundOut.toolsDone
          (evs ++ OutEvent.toolCalls tools :: tools.flatMap (perToolEvents exec))
          (msgs ++ Message.assistantToolCalls "" (tools.filter (toolOk exec)) ::
            tools.map (fun t => Message.toolMsg t.id (resultString exec t)))
          ((p' + 1) + tools.length)) ∧
      (∀ s, MEvent.answer s ∈ model msgs → OutEvent.answer s ∈ evs) := by
  intro model exec msgs p evs r a tools p' h ht
  exact ⟨baseRoundStep_toolsRound model exec msgs p evs r a tools p' h ht,
    fun s hs => processEvents_done_answer_mem (model msgs) p "" "" [] evs r a tools p' h s hs⟩

theorem tool_round_answer_not_persisted_spec_witness :
    (baseRoundStep (fun _ => [MEvent.answer "hello", MEvent.tool ⟨"t1", "f", "\x7b\x7d"⟩,
        MEvent.endEv]) (fun _ _ => Except.ok "ok") noInterrupt [Message.user "hi"] 0 =
      RoundOut.toolsDone
        [OutEvent.answer "hello", OutEvent.toolCalls [⟨"t1", "f", "\x7b\x7d"⟩],
          OutEvent.toolExecution "f" "t1" (JValue.obj []), OutEvent.toolResult "f" "t1" "ok"]
        [Message.user "hi", Message.assistantToolCalls "" [⟨"t1", "f", "\x7b\x7d"⟩],
          Message.toolMsg "t1" "ok"] 5) ∧
    OutEvent.answer "hello" ∈ [OutEvent.answer "hello",
      OutEvent.toolCalls [⟨"t1", "f", "\x7b\x7d"⟩]] := by
  have h := tool_round_answer_not_persisted_spec
    (fun _ => [MEvent.answer "hello", MEvent.tool ⟨"t1", "f", "\x7b\x7d"⟩, MEvent.endEv])
    (fun _ _ => Except.ok "ok") [Message.user "hi"] 0
    [OutEvent.answer "hello"] "" "hello" [⟨"t1", "f", "\x7b\x7d"⟩] 3 rfl
    (List.cons_ne_nil _ _)
  exact ⟨h.1, List.mem_cons_self _ _⟩

theorem execToolsDSGo_toolMsgs_shape (ip : Nat → Bool) (exec : Exec) (tools : List ToolCall) :
    ∀ p, ∀ m ∈ (execToolsDSGo ip exec tools p).toolMsgs, ∃ i c, m = Message.toolMsg i c := by
  induction tools with
  | nil =>
    intro p m hm
    simp [execToolsDSGo] at hm
  | cons t ts ih =>
    intro p m hm
    by_cases hip : ip p = true
    · simp [execToolsDSGo, hip] at hm
    · cases hp : tryParseToolArguments t.arguments with
      | none =>
        simp [execToolsDSGo, hip, hp] at hm
        rcases hm with rfl | hm
        · exact ⟨_, _, rfl⟩
        · exact ih _ m hm
      | some args =>
        cases he : exec t.name args with
        | ok res =>
          simp [execToolsDSGo, hip, hp, he] at hm
          rcases hm with rfl | hm
          · exact ⟨_, _, rfl⟩
          · exact ih _ m hm
        | error msg =>
          simp [execToolsDSGo, hip, hp, he] at hm
          rcases hm with rfl | hm
          · exact ⟨_, _, rfl⟩
          · exact ih _ m hm

/-- C6: the DeepSeek (reasoning-exclusion) orchestrator's history-append
policy (src/models/_deepseek_openai_model.py, lines 124-128 and 159-193):
in a round with zero tool calls and a non-empty answer, the persisted
assistant message is `\x7b'role': 'assistant', 'content': answer\x7d` — it
carries only the answer content and no reasoning_content field, whatever
reasoning text was streamed; in a round with tool calls, the first
persisted message is the assistant message that always carries the
reasoning_content field (even when the accumulated reasoning text is the
empty string), followed only by role=tool result messages. -/
theorem deepseek_reasoning_policy_spec :
    ∀ (model : List Message → List MEvent) (exec : Exec) (ip : Nat → Bool)
      (msgs : List Message) (p : Nat) (evs : List OutEvent) (r a : String)
      (tools : List ToolCall) (p' : Nat),
      processEvents ip (model msgs) p "" "" [] = ProcOut.doneP evs r a tools p' →
      ((tools = [] → a ≠ "" →
        deepseekRoundStep model exec ip msgs p =
          RoundOut.noTools evs (msgs ++ [Message.assistantText a]) a p') ∧
       (tools ≠ [] → ip p' = false →
        ∃ rest,
          deepseekRoundStep model exec ip msgs p =
            RoundOut.toolsDone
              (evs ++ OutEvent.toolCalls tools :: (execToolsDSGo ip exec tools (p' + 1)).events)
              (msgs ++ Message.assistantDeepseek a r tools :: rest)
              (execToolsDSGo ip exec tools (p' + 1)).polls ∧
          ∀ m ∈ rest, ∃ i c, m = Message.toolMsg i c)) := by
  intro model exec ip msgs p evs r a tools p' h
  constructor
  · intro ht ha
    subst ht
    unfold deepseekRoundStep
    rw [h]
    simp [ha]
  · intro ht hip
    refine ⟨(execToolsDSGo ip exec tools (p' + 1)).toolMsgs, ?_,
      execToolsDSGo_toolMsgs_shape ip exec tools (p' + 1)⟩
    unfold deepseekRoundStep
    rw [h]
    simp only [if_neg ht, if_neg (show ¬ ip p' = true by simp [hip])]

theorem deepseek_reasoning_policy_spec_witness :
    deepseekRoundStep (fun _ => [MEvent.think "R", MEvent.answer "A", MEvent.endEv])
        (fun _ _ => Except.ok "ok") noInterrupt [] 0 =
      RoundOut.noTools [OutEvent.thinking "R", OutEvent.answer "A"]
        [Message.assistantText "A"] "A" 3 ∧
    (match deepseekRoundStep
        (fun _ => [MEvent.think "R", MEvent.tool ⟨"t1", "f", "\x7b\x7d"⟩, MEvent.endEv])
        (fun _ _ => Except.ok "ok") noInterrupt [] 0 with
      | RoundOut.toolsDone _ ms _ => ms.head?
      | _ => none) = some (Message.assistantDeepseek "" "R" [⟨"t1", "f", "\x7b\x7d"⟩]) := by
  constructor
  · exact (deepseek_reasoning_policy_spec
      (fun _ => [MEvent.think "R", MEvent.answer "A", MEvent.endEv])
      (fun _ _ => Except.ok "ok") noInterrupt [] 0
      [OutEvent.thinking "R", OutEvent.answer "A"] "R" "A" [] 3 rfl).1 rfl (by decide)
  · obtain ⟨rest, heq, _⟩ := (deepseek_reasoning_policy_spec
      (fun _ => [MEvent.think "R", MEvent.tool ⟨"t1", "f", "\x7b\x7d"⟩, MEvent.endEv])
      (fun _ _ => Except.ok "ok") noInterrupt [] 0
      [OutEvent.thinking "R"] "R" "" [⟨"t1", "f", "\x7b\x7d"⟩] 3 rfl).2
      (List.cons_ne_nil _ _) rfl
    rw [heq]
    simp

theorem execToolsMM_noInterrupt (exec : Exec) (tools : List ToolCall) (p : Nat) :
    execToolsMMGo noInterrupt exec tools p =
      ⟨tools.flatMap (perToolEvents exec),
        tools.map (fun t => ToolResultBlock.mk t.id (resultString exec t)), false,
        p + tools.length⟩ := by
  induction tools generalizing p with
  | nil => simp [execToolsMMGo]
  | cons t ts ih =>
    cases hp : tryParseToolArguments t.arguments with
    | none =>
      simp [execToolsMMGo, noInterrupt, hp, ih, perToolEvents, resultString]
      omega
    | some args =>
      cases he : exec t.name args with
      | ok res =>
        simp [execToolsMMGo, noInterrupt, hp, he, ih, perToolEvents, resultString]
        omega
      | error m =>
        simp [execToolsMMGo, noInterrupt, hp, he, ih, perToolEvents, resultString]
        omega

/-- C7 counterexample: a Minimax round with one tool call whose
accumulated argument text is not valid JSON.  The block reconstruction of
src/models/_minimax_anthropic_model.py line 160 calls strict `json.loads`
on each argument string before anything is appended, so the round raises
into the outer except (lines 207-212), emits a single error event, and
appends nothing — no assistant message with the round's content blocks and
no user-role tool-result message — falsifying the claim that every round
with one or more tool calls appends exactly one assistant message and
exactly one aggregated user-role tool-result message. -/
theorem minimax_malformed_args_counterexample :
    minimaxRoundStep (fun _ => [MEvent.tool ⟨"t1", "f", "\x7bbad"⟩, MEvent.endEv])
        (fun _ _ => Except.ok "ok") noInterrupt [Message.user "hi"] 0 =
      RoundOut.aborted [OutEvent.error ("响应错误: " ++ jsonErrText)] [Message.user "hi"] 2 :=
  rfl

/-- C7 amended: the Minimax (full-block-replay) orchestrator
(src/models/_minimax_anthropic_model.py, lines 141-203 and 236-322), under
no interrupt.  In a round with tool calls whose accumulated argument texts
all parse as strict JSON (as reconstructing the tool_use block inputs
requires): exactly one assistant message is appended, whose content is the
ordered block array reconstructed from the round's events — a thinking
block if the thinking text is non-empty, then a text block if the answer
text is non-empty, then one tool_use block per tool call in order — and
the tool results are appended as exactly one user-role message holding the
ordered tool_result block array, appended once after all of the round's
tool calls have been processed; no role=tool message is appended.  If
instead some argument text fails strict JSON parsing, the `json.loads` of
line 160 raises before any append: the round aborts with a single error
event and appends no message at all (see the counterexample). -/
theorem minimax_block_replay_spec :
    ∀ (model : List Message → List MEvent) (exec : Exec) (msgs : List Message) (p : Nat)
      (evs : List OutEvent) (r a : String) (tools : List ToolCall) (p' : Nat),
      processEvents noInterrupt (model msgs) p "" "" [] = ProcOut.doneP evs r a tools p' →
      tools ≠ [] →
      ((∀ tbs : List ContentBlock, toolUseBlocks tools = some tbs →
        minimaxRoundStep model exec noInterrupt msgs p =
          RoundOut.toolsDone
            (evs ++ OutEvent.toolCalls tools :: tools.flatMap (perToolEvents exec))
            (msgs ++ [Message.assistantBlocks
                ((if r ≠ "" then [ContentBlock.thinkingB r] else []) ++
                  (if a ≠ "" then [ContentBlock.textB a] else []) ++ tbs),
              Message.userBlocks
                (tools.map (fun t => ToolResultBlock.mk t.id (resultString exec t)))])
            ((p' + 1) + tools.length)) ∧
       (toolUseBlocks tools = none →
        minimaxRoundStep model exec noInterrupt msgs p =
          RoundOut.aborted (evs ++ [OutEvent.error ("响应错误: " ++ jsonErrText)]) msgs p')) := by
  intro model exec msgs p evs r a tools p' h ht
  constructor
  · intro tbs htbs
    unfold minimaxRoundStep
    rw [h]
    simp only [if_neg ht, buildBlocks, htbs, Option.map_some', noInterrupt, Bool.false_eq_true,
      if_false, execToolsMM_noInterrupt]
  · intro hnone
    unfold minimaxRoundStep
    rw [h]
    simp only [if_neg ht, buildBlocks, hnone, Option.map_none']

theorem minimax_block_replay_spec_witness :
    (minimaxRoundStep (fun _ => [MEvent.tool ⟨"t1", "f", "\x7b\x7d"⟩, MEvent.endEv])
        (fun _ _ => Except.ok "ok") noInterrupt [] 0 =
      RoundOut.toolsDone
        [OutEvent.toolCalls [⟨"t1", "f", "\x7b\x7d"⟩],
          OutEvent.toolExecution "f" "t1" (JValue.obj []), OutEvent.toolResult "f" "t1" "ok"]
        [Message.assistantBlocks [ContentBlock.toolUseB "t1" "f" (JValue.obj [])],
          Message.userBlocks [⟨"t1", "ok"⟩]] 4) ∧
    (minimaxRoundStep (fun _ => [MEvent.tool ⟨"t2", "g", "\x7bbad"⟩, MEvent.endEv])
        (fun _ _ => Except.ok "ok") noInterrupt [] 0 =
      RoundOut.aborted [OutEvent.error ("响应错误: " ++ jsonErrText)] [] 2) :=
  ⟨(minimax_block_replay_spec (fun _ => [MEvent.tool ⟨"t1", "f", "\x7b\x7d"⟩, MEvent.endEv])
      (fun _ _ => Except.ok "ok") [] 0 [] "" "" [⟨"t1", "f", "\x7b\x7d"⟩] 2 rfl
      (List.cons_ne_nil _ _)).1 [ContentBlock.toolUseB "t1" "f" (JValue.obj [])] rfl,
    (minimax_block_replay_spec (fun _ => [MEvent.tool ⟨"t2", "g", "\x7bbad"⟩, MEvent.endEv])
      (fun _ _ => Except.ok "ok") [] 0 [] "" "" [⟨"t2", "g", "\x7bbad"⟩] 2 rfl
      (List.cons_ne_nil _ _)).2 rfl⟩

/-- C8 counterexample: a concrete completed round of the base loop whose
single tool call has unparseable arguments.  The round appends the
role=tool message with tool_call_id "t1" (line 332 of
src/models/_model_base.py), yet the assistant message appended for the
round has an empty `tool_calls` list — the entry is registered only on the
success path (line 352) — so the tool message's id appears nowhere among
the assistant message's tool calls and the resulting history is not
acceptable to the provider. -/
theorem history_consistency_counterexample :
    baseRoundStep (fun _ => [MEvent.tool ⟨"t1", "f", "\x7bbad"⟩, MEvent.endEv])
        (fun _ _ => Except.ok "ok") noInterrupt [Message.user "hi"] 0 =
      RoundOut.toolsDone
        [OutEvent.toolCalls [⟨"t1", "f", "\x7bbad"⟩],
          OutEvent.toolResult "f" "t1" (parseFailMsg "\x7bbad")]
        [Message.user "hi", Message.assistantToolCalls "" [],
          Message.toolMsg "t1" (parseFailMsg "\x7bbad")] 4 ∧
    "t1" ∉ (([] : List ToolCall).map ToolCall.id) :=
  ⟨rfl, by decide⟩

/-- C8 amended: when every tool call of the round parses and executes
successfully, the round's history is consistent — the assistant message's
`tool_calls` list is exactly the round's tool calls, each appended
role=tool message's tool_call_id appears among them, and every registered
tool call has its role=tool result message. -/
theorem history_consistency_amended :
    ∀ (exec : Exec) (tools : List ToolCall) (p : Nat),
      (∀ t ∈ tools, toolOk exec t = true) →
      (execToolsBaseGo noInterrupt exec tools p).entries = tools ∧
      (execToolsBaseGo noInterrupt exec tools p).toolMsgs =
        tools.map (fun t => Message.toolMsg t.id (resultString exec t)) ∧
      (∀ i c, Message.toolMsg i c ∈ (execToolsBaseGo noInterrupt exec tools p).toolMsgs →
        i ∈ (execToolsBaseGo noInterrupt exec tools p).entries.map ToolCall.id) ∧
      (∀ e ∈ (execToolsBaseGo noInterrupt exec tools p).entries,
        ∃ c, Message.toolMsg e.id c ∈ (execToolsBaseGo noInterrupt exec tools p).toolMsgs) := by
  intro exec tools p hok
  have hfilter : tools.filter (toolOk exec) = tools := List.filter_eq_self.2 hok
  simp only [execToolsBase_noInterrupt, hfilter]
  refine ⟨trivial, trivial, ?_, ?_⟩
  · intro i c hm
    obtain ⟨t, htmem, heq⟩ := List.mem_map.1 hm
    injection heq with h1 h2
    subst h1
    exact List.mem_map.2 ⟨t, htmem, rfl⟩
  · intro e he
    exact ⟨resultString exec e, List.mem_map.2 ⟨e, he, rfl⟩⟩

theorem history_consistency_amended_witness :
    (execToolsBaseGo noInterrupt (fun _ _ => Except.ok "ok") [⟨"t1", "f", ""⟩] 0).entries =
      [⟨"t1", "f", ""⟩] :=
  (history_consistency_amended (fun _ _ => Except.ok "ok") [⟨"t1", "f", ""⟩] 0 (by decide)).1

/-- C9 counterexample: re-invoking the base loop on a history that already
ends with the assistant answer, with the model re-emitting the identical
answer text, appends a duplicate trailing assistant message.  The in-loop
append of src/models/_model_base.py line 256 is unconditional; the dedup
guard of lines 261-263 only protects the post-loop append, which then sees
the just-appended copy and does nothing — leaving two identical trailing
assistant messages, contradicting the claim that at most one copy of the
final answer ever appears at the end of the history. -/
theorem duplicate_answer_counterexample :
    chatToNextLoopBase 1 (fun _ => [MEvent.answer "X", MEvent.endEv]) (fun _ _ => Except.ok "ok")
        noInterrupt [Message.user "hi", Message.assistantText "X"] =
      some ([OutEvent.answer "X", OutEvent.endEv],
        [Message.user "hi", Message.assistantText "X", Message.assistantText "X"]) := rfl

/-- C9 amended: within a single invocation of the base loop, a final round
with zero tool calls appends the answer exactly once — the in-loop append
(line 256) fires and the post-loop dedup guard (lines 261-263) then
suppresses its own append, so the guard prevents double-appending inside
one invocation only; it does not deduplicate against a pre-existing
trailing assistant message of a re-invoked terminal history (see the
counterexample). -/
theorem single_invocation_answer_append_amended :
    ∀ (model : List Message → List MEvent) (exec : Exec) (msgs : List Message) (fuel p : Nat)
      (evs : List OutEvent) (r a : String) (p' : Nat),
      processEvents noInterrupt (model msgs) p "" "" [] = ProcOut.doneP evs r a [] p' →
      chatToNextLoopGo model exec noInterrupt (fuel + 1) msgs p =
        some (evs ++ [OutEvent.endEv],
          msgs ++ (if a ≠ "" then [Message.assistantText a] else [])) := by
  intro model exec msgs fuel p evs r a p' h
  unfold chatToNextLoopGo baseRoundStep
  rw [h]
  by_cases ha : a = ""
  · simp [ha, dedupTrailingAppend]
  · have hd : dedupTrailingAppend (msgs ++ [Message.assistantText a]) a =
        msgs ++ [Message.assistantText a] := by
      unfold dedupTrailingAppend
      rw [if_neg ha, List.getLast?_concat]
      simp [isAssistantWithContent]
    simp [ha, hd]

theorem single_invocation_answer_append_amended_witness :
    chatToNextLoopGo (fun _ => [MEvent.answer "X", MEvent.endEv]) (fun _ _ => Except.ok "ok")
        noInterrupt 1 [Message.user "hi"] 0 =
      some ([OutEvent.answer "X", OutEvent.endEv],
        [Message.user "hi", Message.assistantText "X"]) := by
  have h := single_invocation_answer_append_amended
    (fun _ => [MEvent.answer "X", MEvent.endEv]) (fun _ _ => Except.ok "ok")
    [Message.user "hi"] 0 0 [OutEvent.answer "X"] "" "X" 2 rfl
  simpa using h

/-- C5: the interrupt predicate is polled at the claimed points, but once
it returns true during tool execution the loop does not terminate: the
early return of _execute_tools_in_loop (src/models/_model_base.py, line
315) only ends that helper generator, after which the while loop of
chatToNextLoop continues (its condition `tool_info` is still non-empty,
line 183), the model is invoked again, and a second interrupted event is
emitted.  Concretely, with a monotone predicate that becomes true at the
poll before the first tool execution, the outward trace is
[tool_calls, interrupted, interrupted]: events are emitted after the first
interrupted event and the trace does not end with exactly one interrupted
event, contradicting the claim. -/
theorem interrupt_loop_continuation_bug :
    (chatToNextLoopBase 3
        (fun msgs =>
          if msgs.length ≤ 1 then [MEvent.tool ⟨"t1", "f", "\x7b\x7d"⟩, MEvent.endEv]
          else [MEvent.endEv])
        (fun _ _ => Except.ok "ok") (fun n => decide (3 ≤ n)) [Message.user "hi"] =
      some ([OutEvent.toolCalls [⟨"t1", "f", "\x7b\x7d"⟩], OutEvent.interrupted interruptedMsg,
          OutEvent.interrupted interruptedMsg],
        [Message.user "hi", Message.assistantToolCalls "" []])) ∧
    (∀ m n : Nat, m ≤ n → decide (3 ≤ m) = true → decide (3 ≤ n) = true) := by
  constructor
  · rfl
  · intro m n hmn h3
    simp only [decide_eq_true_eq] at h3 ⊢
    omega
